import Mathlib

/-!
# Flow aggregation pipeline (`mapreduce/flow.go`)

A shallow embedding of the flow handler of package `mapreduce`: the temporal
validity filter `isValidFlow`, the batching output loop `putToQueue`, the
double-buffered emit counters read by `GetCounter`, and the `Process` /
`Flush` / `NeedFlush` entry points.

Conventions of the embedding:

* `time.Duration` is `int64`; a value is an `Int`, and every addition or
  subtraction the code performs is wrapped by `wrap64`.
* `uint64` counters are `Nat`, reduced modulo `2 ^ 64` after each addition.
* `time.Now()` is a clock: a sequence of readings and a position.  Every
  call of `time.Now()` in the source takes the reading at the position and
  advances it by one.
* The output queue is the list of the batches handed to `Put`, oldest first.
* An index out of range is a Go panic, a loop that cannot end is divergence;
  both are values of `Fault`.
-/

set_option autoImplicit false

namespace Mapreduce

/-! ## Machine integers and time -/

/-- Two's-complement wrap-around of an `int64` result. -/
def wrap64 (x : Int) : Int := (x + 2 ^ 63) % 2 ^ 64 - 2 ^ 63

/-- Membership in the range of `int64`. -/
def inInt64 (x : Int) : Prop := -(2 : Int) ^ 63 ≤ x ∧ x < (2 : Int) ^ 63

instance (x : Int) : Decidable (inInt64 x) := by
  unfold inInt64; infer_instance

/-- The constant `time.Second`, in nanoseconds. -/
def Second : Int := 1000000000

/-- The constant `time.Minute`, in nanoseconds. -/
def Minute : Int := 60 * Second

/-- The per-direction metrics of a flow; only `ArrTimeLast` is read here. -/
structure FlowMetricsPeer where
  ArrTimeLast : Int
deriving DecidableEq, Repr

/-- The fields of `datatype.TaggedFlow` that the handler reads. -/
structure TaggedFlow where
  StartTime : Int
  EndTime : Int
  CurStartTime : Int
  FlowMetricsPeerSrc : FlowMetricsPeer
  FlowMetricsPeerDst : FlowMetricsPeer
deriving DecidableEq, Repr

/-- Every timestamp of the flow is a value of `int64`. -/
def TaggedFlow.inRange (flow : TaggedFlow) : Prop :=
  inInt64 flow.StartTime ∧ inInt64 flow.EndTime ∧ inInt64 flow.CurStartTime ∧
    inInt64 flow.FlowMetricsPeerSrc.ArrTimeLast ∧ inInt64 flow.FlowMetricsPeerDst.ArrTimeLast

instance (flow : TaggedFlow) : Decidable flow.inRange := by
  unfold TaggedFlow.inRange; infer_instance

/-! ## `isValidFlow` -/

/-- The loop `for i := 0; i < 3; i++` over `times` of `isValidFlow`, as a
recursion over the array: `false` at the first entry above `rightMargin` or
above `curTime`. -/
def timesWithin (rightMargin curTime : Int) : List Int → Bool
  | [] => true
  | t :: rest =>
    if t > rightMargin ∨ t > curTime then false
    else timesWithin rightMargin curTime rest

/-- The function `isValidFlow`, with the reading of `time.Now()` as the
argument `curTime`. -/
def isValidFlow (flow : TaggedFlow) (curTime : Int) : Bool :=
  let startTime := flow.StartTime
  let endTime := flow.EndTime
  if startTime > curTime ∨ endTime > curTime then false
  else if endTime > wrap64 (startTime + 2 * Minute) then false
  else if endTime ≠ 0 ∧ endTime < startTime then false
  else
    let currStart := flow.CurStartTime
    let arr0Last := flow.FlowMetricsPeerSrc.ArrTimeLast
    let arr1Last := flow.FlowMetricsPeerDst.ArrTimeLast
    let rightMargin := wrap64 (endTime + 2 * Minute)
    timesWithin rightMargin curTime [currStart, arr0Last, arr1Last]

/-- The constant the specification calls `windowMargin`: two minutes. -/
def windowMargin : Int := 2 * Minute

/-- A flow given by its five timestamps, in the order start, end, current
window start, source last arrival, destination last arrival. -/
def mkFlow (s e c a0 a1 : Int) : TaggedFlow :=
  { StartTime := s, EndTime := e, CurStartTime := c,
    FlowMetricsPeerSrc := { ArrTimeLast := a0 },
    FlowMetricsPeerDst := { ArrTimeLast := a1 } }

/-! ## Faults, clock, documents -/

/-- The two ways a call can fail to return: a Go run-time panic (an index out
of range), or a loop that used up its fuel. -/
inductive Fault where
  | panic
  | outOfFuel
deriving DecidableEq

/-- The wall clock seen through `time.Duration(time.Now().UnixNano())`: the
readings to come and how many have been taken. -/
structure Clock where
  readings : Nat → Int
  pos : Nat

/-- The reading the next call of `time.Now()` returns. -/
def Clock.now (c : Clock) : Int := c.readings c.pos

/-- The clock after one call of `time.Now()`. -/
def Clock.tick (c : Clock) : Clock := { c with pos := c.pos + 1 }

/-! ## The per-processor buffer -/

/-- Modelled from the spec: the per-processor buffer `Stash` of package
`mapreduce` (its file is not among the sources).  It is created with a
capacity and a window duration and holds a sequence of documents. -/
structure Stash (Doc : Type) where
  capacity : Nat
  window : Nat
  docs : List Doc

/-- Modelled from the spec: `NewStash(capacity, windowDuration)`, an empty
buffer. -/
def NewStash {Doc : Type} (capacity window : Nat) : Stash Doc :=
  { capacity := capacity, window := window, docs := [] }

/-- Modelled from the spec: `Add(docs)` merges `docs` into the buffer up to
its capacity; it returns `nil` (here `none`) if all of them were absorbed and
the non-nil residual otherwise. -/
def Stash.Add {Doc : Type} (s : Stash Doc) (docs : List Doc) : Stash Doc × Option (List Doc) :=
  let room := s.capacity - s.docs.length
  let s1 := { s with docs := s.docs ++ docs.take room }
  if docs.length ≤ room then (s1, none) else (s1, some (docs.drop room))

/-- Modelled from the spec: `Dump()` returns all buffered documents without
clearing. -/
def Stash.Dump {Doc : Type} (s : Stash Doc) : List Doc := s.docs

/-- Modelled from the spec: `Clear()` empties the buffer. -/
def Stash.Clear {Doc : Type} (s : Stash Doc) : Stash Doc := { s with docs := [] }

/-! ## Processors and statistics items -/

/-- A metric processor (`app.FlowProcessor`): its name, its internal state,
and what `Prepare` and `Process` do to that state. -/
structure FlowProcessor (S Doc : Type) where
  name : String
  state : S
  prepare : S → S
  process : S → TaggedFlow → Bool → S × List Doc

/-- The method `Prepare()`. -/
def FlowProcessor.Prepare {S Doc : Type} (p : FlowProcessor S Doc) : FlowProcessor S Doc :=
  { p with state := p.prepare p.state }

/-- The method `Process(flow, forceFlush)`: the processor afterwards and the
documents it returns. -/
def FlowProcessor.Process {S Doc : Type} (p : FlowProcessor S Doc) (flow : TaggedFlow)
    (forceFlush : Bool) : FlowProcessor S Doc × List Doc :=
  ({ p with state := (p.process p.state flow forceFlush).1 },
    (p.process p.state flow forceFlush).2)

/-- The method `GetName()`. -/
def FlowProcessor.GetName {S Doc : Type} (p : FlowProcessor S Doc) : String := p.name

/-- The kinds of statistics item; the handler only uses `COUNT_TYPE`. -/
inductive StatType where
  | COUNT_TYPE
  | GAUGE_TYPE
deriving DecidableEq

/-- One `stats.StatItem`. -/
structure StatItem where
  Name : String
  StatType : StatType
  Value : Nat
deriving DecidableEq

/-! ## The handler -/

/-- The struct `FlowHandler`.  `zmqAppQueue` is the record of the batches
written to the output queue, oldest first. -/
structure FlowHandler (S Doc : Type) where
  numberOfApps : Nat
  processors : List (FlowProcessor S Doc)
  stashes : List (Stash Doc)
  lastProcess : Int
  zmqAppQueue : List (List Doc)
  emitCounter : List Nat
  counterLatch : Nat
  statItems : List StatItem

/-- The constructor `NewFlowHandler`.  `DOCS_IN_BUFFER` and `WINDOW_SIZE` are
constants of the package that are not among the sources and are arguments
here.  The registration with the statistics registry has no effect on the
handler and is left out. -/
def NewFlowHandler {S Doc : Type} (DOCS_IN_BUFFER WINDOW_SIZE : Nat)
    (processors : List (FlowProcessor S Doc)) (zmqAppQueue : List (List Doc)) (c : Clock) :
    FlowHandler S Doc × Clock :=
  let nApps := processors.length
  ({ numberOfApps := nApps
     processors := processors.map FlowProcessor.Prepare
     stashes := processors.map (fun _ => NewStash DOCS_IN_BUFFER WINDOW_SIZE)
     lastProcess := c.now
     zmqAppQueue := zmqAppQueue
     emitCounter := List.replicate (nApps * 2) 0
     counterLatch := 0
     statItems := processors.map
       (fun p => { Name := p.GetName, StatType := StatType.COUNT_TYPE, Value := 0 }) },
   c.tick)

/-- The loop `for i := 0; i < f.numberOfApps; i++` of `GetCounter`, from
index `i` with `n` rounds to go. -/
def getCounterLoop {S Doc : Type} (oldLatch : Nat) :
    Nat → Nat → FlowHandler S Doc → Except Fault (FlowHandler S Doc)
  | 0, _, f => .ok f
  | n + 1, i, f =>
    match f.statItems[i]?, f.emitCounter[i + oldLatch]? with
    | some item, some v =>
      getCounterLoop oldLatch n (i + 1)
        { f with
          statItems := f.statItems.set i { item with Value := v }
          emitCounter := f.emitCounter.set (i + oldLatch) 0 }
    | _, _ => .error Fault.panic

/-- The method `GetCounter`: the returned `statItems` and the handler
afterwards. -/
def GetCounter {S Doc : Type} (f : FlowHandler S Doc) :
    Except Fault (List StatItem × FlowHandler S Doc) :=
  let oldLatch := f.counterLatch
  let f1 := { f with counterLatch := if f.counterLatch = 0 then f.numberOfApps else 0 }
  match getCounterLoop oldLatch f1.numberOfApps 0 f1 with
  | .error e => .error e
  | .ok f2 => .ok (f2.statItems, f2)

/-- The loop `for j := 0; j < len(docs); j += QUEUE_BATCH_SIZE` of
`putToQueue`, from index `j` with `n` rounds of fuel; `q` is the output queue.
With `B = 0` and a document left the Go loop never ends, and only then can
`docs.length` rounds of fuel run out. -/
def putBatches {Doc : Type} (B : Nat) (docs : List Doc) :
    Nat → Nat → List (List Doc) → Except Fault (List (List Doc))
  | 0, j, q => if j < docs.length then .error Fault.outOfFuel else .ok q
  | n + 1, j, q =>
    if j < docs.length then
      if j + B ≤ docs.length then
        putBatches B docs n (j + B) (q ++ [(docs.drop j).take B])
      else
        putBatches B docs n (j + B) (q ++ [docs.drop j])
    else .ok q

/-- The loop `for i, stash := range f.stashes` of `putToQueue`, over the
stashes still to visit, the first of them at index `i`. -/
def putToQueueLoop {S Doc : Type} (B : Nat) :
    List (Stash Doc) → Nat → FlowHandler S Doc → Except Fault (FlowHandler S Doc)
  | [], _, f => .ok f
  | stash :: rest, i, f =>
    let docs := stash.Dump
    match putBatches B docs docs.length 0 f.zmqAppQueue with
    | .error e => .error e
    | .ok q =>
      match f.emitCounter[i + f.counterLatch]? with
      | none => .error Fault.panic
      | some v =>
        putToQueueLoop B rest (i + 1)
          { f with
            zmqAppQueue := q
            emitCounter := f.emitCounter.set (i + f.counterLatch) ((v + docs.length) % 2 ^ 64)
            stashes := f.stashes.set i stash.Clear }

/-- The method `putToQueue`; `B` is the constant `QUEUE_BATCH_SIZE`, which is
not among the sources. -/
def putToQueue {S Doc : Type} (B : Nat) (f : FlowHandler S Doc) :
    Except Fault (FlowHandler S Doc) :=
  putToQueueLoop B f.stashes 0 f

/-- The method `Flush`. -/
def Flush {S Doc : Type} (B : Nat) (f : FlowHandler S Doc) (c : Clock) :
    Except Fault (FlowHandler S Doc × Clock) :=
  match putToQueue B f with
  | .error e => .error e
  | .ok f1 => .ok ({ f1 with lastProcess := c.now }, c.tick)

/-- The method `NeedFlush`: its result and the clock afterwards. -/
def NeedFlush {S Doc : Type} (f : FlowHandler S Doc) (c : Clock) : Bool × Clock :=
  (decide (wrap64 (c.now - f.lastProcess) > Minute), c.tick)

/-- What the retry loop of `Process` hands back: the handler and the clock,
and two records kept for the proofs, the number of calls of `Flush` and the
handler states seen after every `Add` and after every `Flush`, in order. -/
structure RetryResult (S Doc : Type) where
  handler : FlowHandler S Doc
  clock : Clock
  flushes : Nat
  observed : List (FlowHandler S Doc)

/-- The inner loop `for { docs = f.stashes[i].Add(docs); ... f.Flush() }` of
`Process`; the fuel bounds the number of calls of `Add`. -/
def retryLoop {S Doc : Type} (B i : Nat) :
    Nat → List Doc → FlowHandler S Doc → Clock → Except Fault (RetryResult S Doc)
  | 0, _, _, _ => .error Fault.outOfFuel
  | fuel + 1, docs, f, c =>
    match f.stashes[i]? with
    | none => .error Fault.panic
    | some stash =>
      let f1 := { f with stashes := f.stashes.set i (stash.Add docs).1 }
      match (stash.Add docs).2 with
      | none => .ok { handler := f1, clock := c, flushes := 0, observed := [f1] }
      | some residual =>
        match Flush B f1 c with
        | .error e => .error e
        | .ok (f2, c2) =>
          match retryLoop B i fuel residual f2 c2 with
          | .error e => .error e
          | .ok r =>
            .ok { r with flushes := r.flushes + 1, observed := f1 :: f2 :: r.observed }

/-- The loop `for i, processor := range f.processors` of `Process`, over the
processors still to visit, the first of them at index `i`. -/
def processLoop {S Doc : Type} (B fuel : Nat) (flow : TaggedFlow) :
    List (FlowProcessor S Doc) → Nat → FlowHandler S Doc → Clock →
      Except Fault (FlowHandler S Doc × Clock)
  | [], _, f, c => .ok (f, c)
  | processor :: rest, i, f, c =>
    let docs := (processor.Process flow false).2
    let f1 := { f with processors := f.processors.set i (processor.Process flow false).1 }
    match retryLoop B i fuel docs f1 c with
    | .error e => .error e
    | .ok r => processLoop B fuel flow rest (i + 1) r.handler r.clock

/-- The method `Process`: the returned error (`none` for `nil`), the handler
and the clock afterwards. -/
def Process {S Doc : Type} (B fuel : Nat) (f : FlowHandler S Doc) (c : Clock)
    (flow : TaggedFlow) : Except Fault (Option String × FlowHandler S Doc × Clock) :=
  if isValidFlow flow c.now = false then
    .ok (some "flow timestamp incorrect and droped", f, c.tick)
  else
    match processLoop B fuel flow f.processors 0 f c.tick with
    | .error e => .error e
    | .ok (f1, c1) => .ok (none, { f1 with lastProcess := c1.now }, c1.tick)

/-! ## Sequences of calls -/

/-- A call on the handler; `process` carries the fuel of its retry loops. -/
inductive Call where
  | process (fuel : Nat) (flow : TaggedFlow)
  | flush
  | getCounter

/-- The handler and the clock, with two records kept for the proofs: the
reading at which the most recent accepting `Process` call completed, and
whether `Flush` has been called since. -/
structure World (S Doc : Type) where
  handler : FlowHandler S Doc
  clock : Clock
  lastDone : Option Int
  flushedSince : Bool

/-- The world right after `NewFlowHandler`. -/
def World.init {S Doc : Type} (DOCS_IN_BUFFER WINDOW_SIZE : Nat)
    (processors : List (FlowProcessor S Doc)) (zmqAppQueue : List (List Doc)) (c : Clock) :
    World S Doc :=
  { handler := (NewFlowHandler DOCS_IN_BUFFER WINDOW_SIZE processors zmqAppQueue c).1
    clock := (NewFlowHandler DOCS_IN_BUFFER WINDOW_SIZE processors zmqAppQueue c).2
    lastDone := none
    flushedSince := false }

/-- One call. -/
def World.step {S Doc : Type} (B : Nat) (w : World S Doc) : Call → Except Fault (World S Doc)
  | .process fuel flow =>
    match Process B fuel w.handler w.clock flow with
    | .error e => .error e
    | .ok (none, f, c) =>
      .ok { handler := f, clock := c, lastDone := some (c.readings (c.pos - 1)),
            flushedSince := false }
    | .ok (some _, f, c) => .ok { w with handler := f, clock := c }
  | .flush =>
    match Flush B w.handler w.clock with
    | .error e => .error e
    | .ok (f, c) => .ok { w with handler := f, clock := c, flushedSince := true }
  | .getCounter =>
    match GetCounter w.handler with
    | .error e => .error e
    | .ok (_, f) => .ok { w with handler := f }

/-- A sequence of calls, in order. -/
def World.run {S Doc : Type} (B : Nat) : World S Doc → List Call → Except Fault (World S Doc)
  | w, [] => .ok w
  | w, call :: rest =>
    match w.step B call with
    | .error e => .error e
    | .ok w1 => World.run B w1 rest

/-- The worlds reachable from `NewFlowHandler` by `Process`, `Flush` and
`GetCounter` calls. -/
def Reachable {S Doc : Type} (B DOCS_IN_BUFFER WINDOW_SIZE : Nat)
    (processors : List (FlowProcessor S Doc)) (w : World S Doc) : Prop :=
  ∃ (q0 : List (List Doc)) (c0 : Clock) (calls : List Call),
    World.run B (World.init DOCS_IN_BUFFER WINDOW_SIZE processors q0 c0) calls = .ok w

/-- The structural invariant of a handler over `N` processors: the slices
have the lengths `NewFlowHandler` gives them and the latch selects one half. -/
def FlowHandler.wellFormed {S Doc : Type} (f : FlowHandler S Doc) : Prop :=
  f.processors.length = f.numberOfApps ∧ f.stashes.length = f.numberOfApps ∧
    f.statItems.length = f.numberOfApps ∧ f.emitCounter.length = 2 * f.numberOfApps ∧
    (f.counterLatch = 0 ∨ f.counterLatch = f.numberOfApps)

/-- The half of `emitCounter` that the latch does not select holds zeros. -/
def FlowHandler.inactiveZero {S Doc : Type} (f : FlowHandler S Doc) : Prop :=
  ∀ k : Nat, k < f.numberOfApps →
    f.emitCounter[k + (f.numberOfApps - f.counterLatch)]? = some 0

/-- The batches `putToQueue` writes for one stash whose `Dump` is `docs`: what
the batching loop appends to an empty queue. -/
def batchesOf {Doc : Type} (B : Nat) (docs : List Doc) : List (List Doc) :=
  match putBatches B docs docs.length 0 [] with
  | .ok q => q
  | .error _ => []

/-! ## Concrete processors and handlers for the worked instances -/

/-- A processor without internal state that returns `k` documents, all equal
to `tag`, for every flow. -/
def burstProcessor (name : String) (tag k : Nat) : FlowProcessor Unit Nat :=
  { name := name, state := (), prepare := fun s => s,
    process := fun s _ _ => (s, List.replicate k tag) }

/-- A clock whose first readings are listed and whose later readings are 0. -/
def listClock (readings : List Int) : Clock :=
  { readings := fun n => readings.getD n 0, pos := 0 }

/-- A handler over two processors with stashes of capacity 4 holding two and
three documents, its latch on the first half. -/
def demoHandler : FlowHandler Unit Nat :=
  { numberOfApps := 2
    processors := [burstProcessor "flow" 1 1, burstProcessor "perf" 2 1]
    stashes := [{ capacity := 4, window := 60, docs := [10, 11] },
                { capacity := 4, window := 60, docs := [20, 21, 22] }]
    lastProcess := 0
    zmqAppQueue := []
    emitCounter := [0, 0, 0, 0]
    counterLatch := 0
    statItems := [{ Name := "flow", StatType := StatType.COUNT_TYPE, Value := 0 },
                  { Name := "perf", StatType := StatType.COUNT_TYPE, Value := 0 }] }

/-- Two processors: the first returns one document per flow, the second
three. -/
def demoProcessors : List (FlowProcessor Unit Nat) :=
  [burstProcessor "flow" 1 1, burstProcessor "perf" 2 3]

/-- The world right after `NewFlowHandler` at reading 0, with stashes of
capacity 4; the following readings of the clock are 0, 0 and 70 seconds. -/
def idleStart : World Unit Nat :=
  World.init 4 60 demoProcessors [] (listClock [0, 0, 0, 70 * Second])

/-- One `Process` of an open flow stamped 0, then one `Flush`. -/
def idleCalls : List Call := [Call.process 3 (mkFlow 0 0 0 0 0), Call.flush]

/-- The world after `idleCalls` with batches of two. -/
def idleWorld : World Unit Nat :=
  match World.run 2 idleStart idleCalls with
  | .ok w => w
  | .error _ => idleStart

/-- One `Process` of an open flow stamped 0. -/
def doneCalls : List Call := [Call.process 3 (mkFlow 0 0 0 0 0)]

/-- The world after `doneCalls` with batches of two. -/
def doneWorld : World Unit Nat :=
  match World.run 2 idleStart doneCalls with
  | .ok w => w
  | .error _ => idleStart

/-- Every entry of `emitCounter` is a value of `uint64`. -/
def FlowHandler.countersInRange {S Doc : Type} (f : FlowHandler S Doc) : Prop :=
  ∀ v ∈ f.emitCounter, v < 2 ^ 64

/-- The statistics items carry the processors' names, in order. -/
def FlowHandler.namesAligned {S Doc : Type} (f : FlowHandler S Doc) : Prop :=
  f.statItems.map StatItem.Name = f.processors.map FlowProcessor.GetName

/-- The six processors of the deployment, each returning one document per
flow: the document of processor `i` is `i + 1`. -/
def scenarioProcessors : List (FlowProcessor Unit Nat) :=
  [burstProcessor "flow" 1 1, burstProcessor "perf" 2 1, burstProcessor "geo" 3 1,
    burstProcessor "flowtype" 4 1, burstProcessor "consolelog" 5 1,
    burstProcessor "platform" 6 1]

end Mapreduce

/-!
# ID manager (`server/controller/recorder/db/idmng/manager.go`)

The method `IDManager.Refresh` over pools seen through the interface
`IDPoolUpdater`.
-/

namespace Idmng

/-- An `IDPoolUpdater` as `IDManager.Refresh` uses it: what its method
`refresh` does to the state of the world (the pools and the database behind
them) and the error it returns, `none` for nil. -/
structure IDPoolUpdater (W E : Type) where
  refresh : W → Option E × W

/-- The struct `IDManager`.  The map `resourceTypeToIDPool` is the list of its
entries in the order in which the `range` statement of `Refresh` visits them;
Go leaves that order open, and so is the order of the list. -/
structure IDManager (W E : Type) where
  resourceTypeToIDPool : List (String × IDPoolUpdater W E)

/-- The loop `for _, idPool := range m.resourceTypeToIDPool` of `Refresh`,
over the entries still to visit.  `result` is the variable of that name, `w`
the state of the world, and `calls` the record of the calls of `refresh` made
so far: the resource type of the pool and the error it returned. -/
def refreshLoop {W E : Type} :
    List (String × IDPoolUpdater W E) → Option E → W → List (String × Option E) →
      Option E × W × List (String × Option E)
  | [], result, w, calls => (result, w, calls)
  | (resourceType, idPool) :: rest, result, w, calls =>
    let err := (idPool.refresh w).1
    let result1 := match err with
      | some e => some e
      | none => result
    refreshLoop rest result1 (idPool.refresh w).2 (calls ++ [(resourceType, err)])

/-- The method `IDManager.Refresh`: the returned error, the state of the
world afterwards and the record of the calls of `refresh`.  The two log lines
are left out. -/
def IDManager.Refresh {W E : Type} (m : IDManager W E) (w : W) :
    Option E × W × List (String × Option E) :=
  refreshLoop m.resourceTypeToIDPool none w []

/-- A pool whose `refresh` counts the call in the world and returns `err`. -/
def countingPool (err : Option String) : IDPoolUpdater Nat String :=
  { refresh := fun w => (err, w + 1) }

/-- A manager over three pools, the second of which fails. -/
def demoManager : IDManager Nat String :=
  { resourceTypeToIDPool :=
      [("region", countingPool none), ("az", countingPool (some "az: query failed")),
        ("host", countingPool none)] }

end Idmng

/-!
# Lemmas and claims
-/

namespace Mapreduce

/-! ## Lemmas on `isValidFlow` -/

theorem wrap64_of_inInt64 (x : Int) (h : inInt64 x) : wrap64 x = x := by
  unfold inInt64 at h
  unfold wrap64
  omega

/-- The acceptance condition of `isValidFlow`, spelled out. -/
theorem isValidFlow_eq_true_iff (flow : TaggedFlow) (curTime : Int) :
    isValidFlow flow curTime = true ↔
      flow.StartTime ≤ curTime ∧ flow.EndTime ≤ curTime ∧
      flow.EndTime ≤ wrap64 (flow.StartTime + 2 * Minute) ∧
      (flow.EndTime = 0 ∨ flow.StartTime ≤ flow.EndTime) ∧
      flow.CurStartTime ≤ wrap64 (flow.EndTime + 2 * Minute) ∧
      flow.CurStartTime ≤ curTime ∧
      flow.FlowMetricsPeerSrc.ArrTimeLast ≤ wrap64 (flow.EndTime + 2 * Minute) ∧
      flow.FlowMetricsPeerSrc.ArrTimeLast ≤ curTime ∧
      flow.FlowMetricsPeerDst.ArrTimeLast ≤ wrap64 (flow.EndTime + 2 * Minute) ∧
      flow.FlowMetricsPeerDst.ArrTimeLast ≤ curTime := by
  simp only [isValidFlow, timesWithin]
  split_ifs <;> simp <;> omega

/-! ## Claims on `isValidFlow` -/

/-- C1, as stated, fails.  A closed flow of three minutes with every other
bound respected is rejected for its duration; a flow whose window start lies
within the margin after its end but after the clock reading is rejected; and a
flow ending at the largest `int64` is rejected because the margin addition
wraps around. -/
theorem C1_counterexample :
    ((mkFlow 0 (3 * Minute) 0 0 0).StartTime ≤ (mkFlow 0 (3 * Minute) 0 0 0).EndTime ∧
      (mkFlow 0 (3 * Minute) 0 0 0).EndTime ≤ 3 * Minute ∧
      (mkFlow 0 (3 * Minute) 0 0 0).CurStartTime ≤
        (mkFlow 0 (3 * Minute) 0 0 0).EndTime + windowMargin ∧
      (mkFlow 0 (3 * Minute) 0 0 0).FlowMetricsPeerSrc.ArrTimeLast ≤
        (mkFlow 0 (3 * Minute) 0 0 0).EndTime + windowMargin ∧
      (mkFlow 0 (3 * Minute) 0 0 0).FlowMetricsPeerDst.ArrTimeLast ≤
        (mkFlow 0 (3 * Minute) 0 0 0).EndTime + windowMargin ∧
      isValidFlow (mkFlow 0 (3 * Minute) 0 0 0) (3 * Minute) = false) ∧
    ((mkFlow 0 Second (Minute) 0 0).StartTime ≤ (mkFlow 0 Second (Minute) 0 0).EndTime ∧
      (mkFlow 0 Second (Minute) 0 0).EndTime ≤ Second ∧
      (mkFlow 0 Second (Minute) 0 0).CurStartTime ≤
        (mkFlow 0 Second (Minute) 0 0).EndTime + windowMargin ∧
      (mkFlow 0 Second (Minute) 0 0).FlowMetricsPeerSrc.ArrTimeLast ≤
        (mkFlow 0 Second (Minute) 0 0).EndTime + windowMargin ∧
      (mkFlow 0 Second (Minute) 0 0).FlowMetricsPeerDst.ArrTimeLast ≤
        (mkFlow 0 Second (Minute) 0 0).EndTime + windowMargin ∧
      isValidFlow (mkFlow 0 Second (Minute) 0 0) Second = false) ∧
    ((mkFlow (2 ^ 63 - 1) (2 ^ 63 - 1) 0 0 0).inRange ∧ inInt64 (2 ^ 63 - 1) ∧
      (mkFlow (2 ^ 63 - 1) (2 ^ 63 - 1) 0 0 0).StartTime ≤
        (mkFlow (2 ^ 63 - 1) (2 ^ 63 - 1) 0 0 0).EndTime ∧
      (mkFlow (2 ^ 63 - 1) (2 ^ 63 - 1) 0 0 0).EndTime ≤ 2 ^ 63 - 1 ∧
      (mkFlow (2 ^ 63 - 1) (2 ^ 63 - 1) 0 0 0).CurStartTime ≤
        (mkFlow (2 ^ 63 - 1) (2 ^ 63 - 1) 0 0 0).EndTime + windowMargin ∧
      (mkFlow (2 ^ 63 - 1) (2 ^ 63 - 1) 0 0 0).FlowMetricsPeerSrc.ArrTimeLast ≤
        (mkFlow (2 ^ 63 - 1) (2 ^ 63 - 1) 0 0 0).EndTime + windowMargin ∧
      (mkFlow (2 ^ 63 - 1) (2 ^ 63 - 1) 0 0 0).FlowMetricsPeerDst.ArrTimeLast ≤
        (mkFlow (2 ^ 63 - 1) (2 ^ 63 - 1) 0 0 0).EndTime + windowMargin ∧
      isValidFlow (mkFlow (2 ^ 63 - 1) (2 ^ 63 - 1) 0 0 0) (2 ^ 63 - 1) = false) := by
  decide

/-- C1, amended: a flow with `startTime ≤ endTime ≤ now`, with
`endTime ≤ startTime + 2 minutes`, and with the window start and both peers'
last arrival at most `endTime + margin` and at most `now`, is accepted, when
neither `startTime + 2 minutes` nor `endTime + 2 minutes` overflows. -/
theorem C1_isValidFlow_accepts (flow : TaggedFlow) (now : Int)
    (hs : inInt64 (flow.StartTime + 2 * Minute)) (he : inInt64 (flow.EndTime + 2 * Minute))
    (h1 : flow.StartTime ≤ flow.EndTime) (h2 : flow.EndTime ≤ now)
    (hd : flow.EndTime ≤ flow.StartTime + 2 * Minute)
    (hc : flow.CurStartTime ≤ flow.EndTime + windowMargin)
    (hc2 : flow.CurStartTime ≤ now)
    (ha0 : flow.FlowMetricsPeerSrc.ArrTimeLast ≤ flow.EndTime + windowMargin)
    (ha0n : flow.FlowMetricsPeerSrc.ArrTimeLast ≤ now)
    (ha1 : flow.FlowMetricsPeerDst.ArrTimeLast ≤ flow.EndTime + windowMargin)
    (ha1n : flow.FlowMetricsPeerDst.ArrTimeLast ≤ now) :
    isValidFlow flow now = true := by
  rw [isValidFlow_eq_true_iff, wrap64_of_inInt64 _ hs, wrap64_of_inInt64 _ he]
  unfold windowMargin at hc ha0 ha1
  refine ⟨by omega, h2, hd, Or.inr h1, hc, hc2, ha0, ha0n, ha1, ha1n⟩

/-- The amended C1 at the specification's scenario flow (`startTime = 0`,
`endTime = 1s`) read two seconds after the epoch. -/
theorem C1_isValidFlow_accepts_witness :
    isValidFlow (mkFlow 0 Second 0 Second Second) (2 * Second) = true :=
  C1_isValidFlow_accepts (mkFlow 0 Second 0 Second Second) (2 * Second)
    (by decide) (by decide) (by decide) (by decide) (by decide) (by decide) (by decide)
    (by decide) (by decide) (by decide) (by decide)

/-- C2: when neither addition of the code overflows, `isValidFlow` returns
false as soon as one of the four listed conditions holds: a start or end after
`now`; a positive end more than `2 * windowMargin` after the start; a positive
end before the start; or one of the three activity timestamps above
`endTime + windowMargin` or above `now`. -/
theorem C2_isValidFlow_rejects (flow : TaggedFlow) (now : Int)
    (hs : inInt64 (flow.StartTime + 2 * Minute)) (he : inInt64 (flow.EndTime + 2 * Minute))
    (h : (flow.StartTime > now ∨ flow.EndTime > now) ∨
      (flow.EndTime > 0 ∧ flow.EndTime > flow.StartTime + 2 * windowMargin) ∨
      (flow.EndTime > 0 ∧ flow.EndTime < flow.StartTime) ∨
      (flow.CurStartTime > flow.EndTime + windowMargin ∨ flow.CurStartTime > now ∨
        flow.FlowMetricsPeerSrc.ArrTimeLast > flow.EndTime + windowMargin ∨
        flow.FlowMetricsPeerSrc.ArrTimeLast > now ∨
        flow.FlowMetricsPeerDst.ArrTimeLast > flow.EndTime + windowMargin ∨
        flow.FlowMetricsPeerDst.ArrTimeLast > now)) :
    isValidFlow flow now = false := by
  rw [← Bool.not_eq_true, isValidFlow_eq_true_iff, wrap64_of_inInt64 _ hs,
    wrap64_of_inInt64 _ he]
  unfold windowMargin at h
  unfold Minute Second at *
  omega

/-- C2 at a flow that lasts five minutes. -/
theorem C2_isValidFlow_rejects_witness :
    isValidFlow (mkFlow 0 (5 * Minute) 0 0 0) (6 * Minute) = false :=
  C2_isValidFlow_rejects (mkFlow 0 (5 * Minute) 0 0 0) (6 * Minute) (by decide) (by decide)
    (Or.inr (Or.inl (by decide)))

/-- C3, as stated, fails for an open flow: with `endTime = 0` the flow is
accepted at `now = 10`, and raising `startTime` from 0 to 5, above `endTime`,
leaves it accepted. -/
theorem C3_counterexample :
    isValidFlow (mkFlow 0 0 0 0 0) 10 = true ∧
      (mkFlow 5 0 0 0 0).StartTime > (mkFlow 5 0 0 0 0).EndTime ∧
      isValidFlow (mkFlow 5 0 0 0 0) 10 = true := by
  decide

/-- C3, amended: for a flow accepted at `now`, each of these single changes
gives a rejected flow: `startTime` raised above `endTime` when `endTime ≠ 0`;
`endTime` raised above `now`; the window start, the source peer's or the
destination peer's last arrival raised to an `int64` value above
`endTime + margin` (`endTime` being an `int64` value). -/
theorem C3_mutation_rejects (flow : TaggedFlow) (now : Int)
    (_hv : isValidFlow flow now = true) (he : inInt64 flow.EndTime) :
    (∀ s : Int, flow.EndTime ≠ 0 → s > flow.EndTime →
        isValidFlow { flow with StartTime := s } now = false) ∧
    (∀ e : Int, e > now → isValidFlow { flow with EndTime := e } now = false) ∧
    (∀ t : Int, inInt64 t → t > flow.EndTime + windowMargin →
        isValidFlow { flow with CurStartTime := t } now = false) ∧
    (∀ t : Int, inInt64 t → t > flow.EndTime + windowMargin →
        isValidFlow { flow with FlowMetricsPeerSrc := { ArrTimeLast := t } } now = false) ∧
    (∀ t : Int, inInt64 t → t > flow.EndTime + windowMargin →
        isValidFlow { flow with FlowMetricsPeerDst := { ArrTimeLast := t } } now = false) := by
  unfold inInt64 at he
  refine ⟨?_, ?_, ?_, ?_, ?_⟩
  · intro s h0 hs
    rw [← Bool.not_eq_true, isValidFlow_eq_true_iff]
    simp only
    omega
  · intro e h
    rw [← Bool.not_eq_true, isValidFlow_eq_true_iff]
    simp only
    omega
  all_goals
    intro t ht h
    rw [← Bool.not_eq_true, isValidFlow_eq_true_iff]
    unfold inInt64 at ht
    unfold windowMargin at h
    unfold wrap64 Minute Second at *
    simp only
    omega

/-- The amended C3 at the scenario flow, accepted two seconds after the
epoch: its end raised to three seconds is rejected. -/
theorem C3_mutation_rejects_witness :
    isValidFlow (mkFlow 0 Second 0 0 0) (2 * Second) = true ∧
      isValidFlow { mkFlow 0 Second 0 0 0 with EndTime := 3 * Second } (2 * Second) = false :=
  ⟨by decide,
    (C3_mutation_rejects (mkFlow 0 Second 0 0 0) (2 * Second) (by decide) (by decide)).2.1
      (3 * Second) (by decide)⟩

/-! ## Claims on `Process` with a rejected flow -/

/-- C4: when `isValidFlow` rejects the flow, `Process` returns a non-nil error
and the handler it leaves is the handler it was given (processors, stashes,
output queue, counters, latch and `lastProcess` alike); and `Process` returns
a non-nil error only when `isValidFlow` rejects the flow. -/
theorem C4_process_rejected {S Doc : Type} (B fuel : Nat) (f : FlowHandler S Doc) (c : Clock)
    (flow : TaggedFlow) :
    (isValidFlow flow c.now = false →
      ∃ e : String, Process B fuel f c flow = .ok (some e, f, c.tick)) ∧
    (∀ (e : String) (f1 : FlowHandler S Doc) (c1 : Clock),
      Process B fuel f c flow = .ok (some e, f1, c1) → isValidFlow flow c.now = false) := by
  constructor
  · intro h
    exact ⟨"flow timestamp incorrect and droped", by simp [Process, h]⟩
  · intro e f1 c1 h
    by_contra hv
    unfold Process at h
    rw [if_neg hv] at h
    split at h <;> simp at h

/-- C4 at a flow that ends after the clock reading. -/
theorem C4_process_rejected_witness :
    ∃ e : String, Process 2 5 demoHandler (listClock [Second]) (mkFlow 0 (2 * Second) 0 0 0) =
      .ok (some e, demoHandler, (listClock [Second]).tick) :=
  (C4_process_rejected 2 5 demoHandler (listClock [Second]) (mkFlow 0 (2 * Second) 0 0 0)).1
    (by decide)

/-! ## The batching loop and `Flush` -/

theorem putBatches_append {Doc : Type} (B : Nat) (docs : List Doc) :
    ∀ (n j : Nat) (q q1 : List (List Doc)),
      putBatches B docs n j (q ++ q1) = (putBatches B docs n j q1).map (fun r => q ++ r) := by
  intro n
  induction n with
  | zero =>
    intro j q q1
    simp only [putBatches]
    split_ifs <;> rfl
  | succ n ih =>
    intro j q q1
    simp only [putBatches]
    split_ifs
    · rw [List.append_assoc, ih]
    · rw [List.append_assoc, ih]
    · rfl

/-- The number of batches and their sizes, for `k` documents left. -/
theorem putBatches_spec {Doc : Type} (B : Nat) (hB : 0 < B) (docs : List Doc) :
    ∀ (n j : Nat), docs.length ≤ j + n →
      ∃ bs : List (List Doc), putBatches B docs n j [] = .ok bs ∧
        bs.flatten = docs.drop j ∧
        (docs.length - j ≤ bs.length * B ∧ bs.length * B < docs.length - j + B) ∧
        (∀ (idx : Nat) (b : List Doc), bs[idx]? = some b → idx + 1 < bs.length → b.length = B) ∧
        (∀ b : List Doc, bs.getLast? = some b →
          b.length = if (docs.length - j) % B = 0 then B else (docs.length - j) % B) := by
  intro n
  induction n with
  | zero =>
    intro j h
    refine ⟨[], ?_, ?_, ?_, ?_, ?_⟩
    · simp only [putBatches]
      rw [if_neg (by omega)]
    · simp [List.drop_of_length_le (show docs.length ≤ j by omega)]
    · simp; omega
    · simp
    · simp
  | succ n ih =>
    intro j h
    by_cases hj : j < docs.length
    · by_cases hfull : j + B ≤ docs.length
      · obtain ⟨bs, hrun, hflat, hcount, hsize, hlast⟩ := ih (j + B) (by omega)
        refine ⟨(docs.drop j).take B :: bs, ?_, ?_, ?_, ?_, ?_⟩
        · simp only [putBatches]
          rw [if_pos hj, if_pos hfull]
          have := putBatches_append B docs n (j + B) [(docs.drop j).take B] []
          simp only [List.append_nil] at this
          rw [List.nil_append, this, hrun]
          rfl
        · rw [List.flatten_cons, hflat, ← List.drop_drop, List.take_append_drop]
        · simp only [List.length_cons, Nat.succ_mul]
          omega
        · intro idx b hb hidx
          cases idx with
          | zero =>
            simp at hb
            subst hb
            simp [List.length_take, List.length_drop]
            omega
          | succ idx =>
            simp at hb hidx
            exact hsize idx b hb (by omega)
        · intro b hb
          have hmod : (docs.length - j) % B = (docs.length - (j + B)) % B := by
            have : docs.length - j = docs.length - (j + B) + B := by omega
            rw [this, Nat.add_mod_right]
          cases bs with
          | nil =>
            simp at hb
            subst hb
            simp at hcount
            have h0 : docs.length - j = B := by omega
            simp [h0, List.length_take, List.length_drop]
          | cons b1 bs1 =>
            rw [List.getLast?_cons_cons] at hb
            rw [hmod]
            exact hlast b hb
      · obtain ⟨bs, hrun, hflat, hcount, hsize, hlast⟩ := ih (j + B) (by omega)
        have hnil : bs = [] := by
          cases bs with
          | nil => rfl
          | cons b1 bs1 =>
            simp only [List.length_cons, Nat.succ_mul] at hcount
            omega
        subst hnil
        refine ⟨[docs.drop j], ?_, ?_, ?_, ?_, ?_⟩
        · simp only [putBatches]
          rw [if_pos hj, if_neg hfull]
          have := putBatches_append B docs n (j + B) [docs.drop j] []
          simp only [List.append_nil] at this
          rw [List.nil_append, this, hrun]
          rfl
        · simp
        · simp; omega
        · intro idx b hb hidx
          simp at hidx
        · intro b hb
          simp at hb
          subst hb
          have hlt : docs.length - j < B := by omega
          rw [Nat.mod_eq_of_lt hlt, if_neg (by omega), List.length_drop]
    · refine ⟨[], ?_, ?_, ?_, ?_, ?_⟩
      · simp only [putBatches]
        rw [if_neg hj]
      · simp [List.drop_of_length_le (show docs.length ≤ j by omega)]
      · simp; omega
      · simp
      · simp

theorem putBatches_eq_batchesOf {Doc : Type} (B : Nat) (hB : 0 < B) (docs : List Doc)
    (q : List (List Doc)) :
    putBatches B docs docs.length 0 q = .ok (q ++ batchesOf B docs) := by
  obtain ⟨bs, hrun, -⟩ := putBatches_spec B hB docs docs.length 0 (by omega)
  have h := putBatches_append B docs docs.length 0 q []
  rw [List.append_nil] at h
  rw [h, batchesOf, hrun]
  rfl

theorem batchesOf_flatten {Doc : Type} (B : Nat) (hB : 0 < B) (docs : List Doc) :
    (batchesOf B docs).flatten = docs := by
  obtain ⟨bs, hrun, hflat, -⟩ := putBatches_spec B hB docs docs.length 0 (by omega)
  rw [batchesOf, hrun]
  simpa using hflat

theorem batchesOf_length {Doc : Type} (B : Nat) (hB : 0 < B) (docs : List Doc) :
    (batchesOf B docs).length = (docs.length + B - 1) / B := by
  obtain ⟨bs, hrun, -, hcount, -⟩ := putBatches_spec B hB docs docs.length 0 (by omega)
  rw [batchesOf, hrun]
  simp only [Nat.sub_zero] at hcount ⊢
  symm
  apply Nat.div_eq_of_lt_le
  · omega
  · rw [Nat.succ_mul]; omega

theorem batchesOf_size {Doc : Type} (B : Nat) (hB : 0 < B) (docs : List Doc) (idx : Nat)
    (b : List Doc) (hb : (batchesOf B docs)[idx]? = some b)
    (hidx : idx + 1 < (batchesOf B docs).length) : b.length = B := by
  obtain ⟨bs, hrun, -, -, hsize, -⟩ := putBatches_spec B hB docs docs.length 0 (by omega)
  rw [batchesOf, hrun] at hb hidx
  exact hsize idx b hb hidx

theorem batchesOf_last {Doc : Type} (B : Nat) (hB : 0 < B) (docs : List Doc)
    (b : List Doc) (hb : (batchesOf B docs).getLast? = some b) :
    b.length = if docs.length % B = 0 then B else docs.length % B := by
  obtain ⟨bs, hrun, -, -, -, hlast⟩ := putBatches_spec B hB docs docs.length 0 (by omega)
  rw [batchesOf, hrun] at hb
  simpa using hlast b hb

theorem putToQueueLoop_spec {S Doc : Type} (B : Nat) (hB : 0 < B) :
    ∀ (rest pre : List (Stash Doc)) (i : Nat) (f : FlowHandler S Doc),
      pre.length = i → f.stashes = pre ++ rest →
      i + rest.length + f.counterLatch ≤ f.emitCounter.length →
      ∃ f1 : FlowHandler S Doc, putToQueueLoop B rest i f = .ok f1 ∧
        f1.stashes = pre ++ rest.map Stash.Clear ∧
        f1.zmqAppQueue = f.zmqAppQueue ++ (rest.map (fun s => batchesOf B s.Dump)).flatten ∧
        f1.numberOfApps = f.numberOfApps ∧ f1.processors = f.processors ∧
        f1.lastProcess = f.lastProcess ∧ f1.counterLatch = f.counterLatch ∧
        f1.statItems = f.statItems ∧ f1.emitCounter.length = f.emitCounter.length ∧
        (∀ k : Nat, k < i + f.counterLatch ∨ i + rest.length + f.counterLatch ≤ k →
          f1.emitCounter[k]? = f.emitCounter[k]?) ∧
        (∀ (idx : Nat) (s : Stash Doc), rest[idx]? = some s →
          f1.emitCounter[i + idx + f.counterLatch]? =
            some ((f.emitCounter.getD (i + idx + f.counterLatch) 0 + s.docs.length) % 2 ^ 64)) := by
  intro rest
  induction rest with
  | nil =>
    intro pre i f hi hst hlen
    exact ⟨f, rfl, by simpa using hst, by simp, rfl, rfl, rfl, rfl, rfl, rfl,
      fun _ _ => rfl, by simp⟩
  | cons stash rest ih =>
    intro pre i f hi hst hlen
    simp only [List.length_cons] at hlen
    have hin : i + f.counterLatch < f.emitCounter.length := by omega
    obtain ⟨f1, hrun, h1, h2, h3, h4, h5, h6, h7, h8, h9, h10⟩ :=
      ih (pre ++ [stash.Clear]) (i + 1)
        { f with
          zmqAppQueue := f.zmqAppQueue ++ batchesOf B stash.Dump
          emitCounter := f.emitCounter.set (i + f.counterLatch)
            ((f.emitCounter[i + f.counterLatch] + stash.Dump.length) % 2 ^ 64)
          stashes := f.stashes.set i stash.Clear }
        (by simp [hi])
        (by
          simp only [hst]
          rw [List.set_append, if_neg (by omega)]
          simp [hi])
        (by simp only [List.length_set]; omega)
    dsimp only at h2 h3 h4 h5 h6 h7 h8 h9 h10
    refine ⟨f1, ?_, ?_, ?_, h3, h4, h5, h6, h7, ?_, ?_, ?_⟩
    · simp only [putToQueueLoop]
      rw [putBatches_eq_batchesOf B hB]
      simp only [List.getElem?_eq_getElem hin]
      exact hrun
    · rw [h1]; simp
    · rw [h2]; simp
    · rw [h8]; simp
    · intro k hk
      simp only [List.length_cons] at hk
      rw [h9 k (by omega), List.getElem?_set_ne (by omega)]
    · intro idx s hs
      cases idx with
      | zero =>
        simp at hs
        subst hs
        rw [h9 (i + 0 + f.counterLatch) (by omega)]
        simp only [Nat.add_zero]
        rw [List.getElem?_set_self hin, List.getD_eq_getElem?_getD,
          List.getElem?_eq_getElem hin]
        rfl
      | succ idx =>
        simp at hs
        have := h10 idx s hs
        rw [show i + (idx + 1) + f.counterLatch = i + 1 + idx + f.counterLatch by omega, this]
        rw [List.getD_eq_getElem?_getD, List.getD_eq_getElem?_getD,
          List.getElem?_set_ne (by omega)]

/-- What `Flush` does when every counter index it uses is in range. -/
theorem Flush_spec {S Doc : Type} (B : Nat) (hB : 0 < B) (f : FlowHandler S Doc) (c : Clock)
    (hidx : f.stashes.length + f.counterLatch ≤ f.emitCounter.length) :
    ∃ f1 : FlowHandler S Doc, Flush B f c = .ok (f1, c.tick) ∧
      f1.stashes = f.stashes.map Stash.Clear ∧
      f1.zmqAppQueue = f.zmqAppQueue ++ (f.stashes.map (fun s => batchesOf B s.Dump)).flatten ∧
      f1.numberOfApps = f.numberOfApps ∧ f1.processors = f.processors ∧
      f1.lastProcess = c.now ∧ f1.counterLatch = f.counterLatch ∧
      f1.statItems = f.statItems ∧ f1.emitCounter.length = f.emitCounter.length ∧
      (∀ k : Nat, k < f.counterLatch ∨ f.stashes.length + f.counterLatch ≤ k →
        f1.emitCounter[k]? = f.emitCounter[k]?) ∧
      (∀ (idx : Nat) (s : Stash Doc), f.stashes[idx]? = some s →
        f1.emitCounter[idx + f.counterLatch]? =
          some ((f.emitCounter.getD (idx + f.counterLatch) 0 + s.docs.length) % 2 ^ 64)) := by
  obtain ⟨f1, hrun, h1, h2, h3, h4, h5, h6, h7, h8, h9, h10⟩ :=
    putToQueueLoop_spec B hB f.stashes [] 0 f rfl rfl (by omega)
  refine ⟨{ f1 with lastProcess := c.now }, ?_, ?_, h2, h3, h4, rfl, h6, h7, h8, ?_, ?_⟩
  · simp [Flush, putToQueue, hrun]
  · simpa using h1
  · intro k hk
    exact h9 k (by omega)
  · intro idx s hs
    simpa using h10 idx s hs

theorem sum_length_batches {Doc : Type} (B : Nat) (hB : 0 < B) (l : List (Stash Doc)) :
    (((l.map (fun s => batchesOf B s.Dump)).flatten).map List.length).sum =
      (l.map (fun s => s.docs.length)).sum := by
  induction l with
  | nil => rfl
  | cons s rest ih =>
    simp only [List.map_cons, List.flatten_cons, List.map_append, List.sum_append, List.sum_cons,
      ih]
    rw [← List.length_flatten, batchesOf_flatten B hB]
    rfl

/-- C5: with a positive batch size, `Flush` returns; afterwards every stash
holds zero documents, and the batches it appended to the output queue hold as
many documents in total as the stashes held before. -/
theorem C5_flush_complete {S Doc : Type} (B : Nat) (hB : 0 < B) (f : FlowHandler S Doc)
    (c : Clock) (hidx : f.stashes.length + f.counterLatch ≤ f.emitCounter.length) :
    ∃ (f1 : FlowHandler S Doc) (c1 : Clock) (written : List (List Doc)),
      Flush B f c = .ok (f1, c1) ∧
      f1.stashes.length = f.stashes.length ∧
      (∀ s ∈ f1.stashes, s.docs.length = 0) ∧
      f1.zmqAppQueue = f.zmqAppQueue ++ written ∧
      (written.map List.length).sum = (f.stashes.map (fun s => s.docs.length)).sum := by
  obtain ⟨f1, hrun, h1, h2, -⟩ := Flush_spec B hB f c hidx
  refine ⟨f1, c.tick, _, hrun, ?_, ?_, h2, sum_length_batches B hB f.stashes⟩
  · rw [h1, List.length_map]
  · intro s hs
    rw [h1, List.mem_map] at hs
    obtain ⟨t, -, rfl⟩ := hs
    rfl

/-- C5 at the demonstration handler with batches of two. -/
theorem C5_flush_complete_witness :
    ∃ (f1 : FlowHandler Unit Nat) (c1 : Clock) (written : List (List Nat)),
      Flush 2 demoHandler (listClock [5]) = .ok (f1, c1) ∧
      f1.stashes.length = demoHandler.stashes.length ∧
      (∀ s ∈ f1.stashes, s.docs.length = 0) ∧
      f1.zmqAppQueue = demoHandler.zmqAppQueue ++ written ∧
      (written.map List.length).sum = (demoHandler.stashes.map (fun s => s.docs.length)).sum :=
  C5_flush_complete 2 (by decide) demoHandler (listClock [5]) (by decide)

/-- C6: with a positive batch size `B`, `Flush` returns and appends to the
output queue, stash after stash, the batches of each stash; for a stash of `k`
documents these are `(k + B - 1) / B` batches (the ceiling of `k / B`), every
batch before the last has `B` documents, the last has `k % B` documents when
`B` does not divide `k` and `B` when it does, and there is none when
`k = 0`. -/
theorem C6_batch_slicing {S Doc : Type} (B : Nat) (hB : 0 < B) (f : FlowHandler S Doc)
    (c : Clock) (hidx : f.stashes.length + f.counterLatch ≤ f.emitCounter.length) :
    ∃ (f1 : FlowHandler S Doc) (c1 : Clock), Flush B f c = .ok (f1, c1) ∧
      f1.zmqAppQueue = f.zmqAppQueue ++ (f.stashes.map (fun s => batchesOf B s.Dump)).flatten ∧
      ∀ s ∈ f.stashes,
        (batchesOf B s.Dump).length = (s.docs.length + B - 1) / B ∧
        (∀ (idx : Nat) (b : List Doc), (batchesOf B s.Dump)[idx]? = some b →
          idx + 1 < (batchesOf B s.Dump).length → b.length = B) ∧
        (∀ b : List Doc, (batchesOf B s.Dump).getLast? = some b →
          b.length = if s.docs.length % B = 0 then B else s.docs.length % B) ∧
        (s.docs.length = 0 → batchesOf B s.Dump = []) := by
  obtain ⟨f1, hrun, -, h2, -⟩ := Flush_spec B hB f c hidx
  refine ⟨f1, c.tick, hrun, h2, ?_⟩
  intro s _
  refine ⟨batchesOf_length B hB s.Dump, batchesOf_size B hB s.Dump, batchesOf_last B hB s.Dump, ?_⟩
  intro h0
  have hl := batchesOf_length B hB s.Dump
  have hd : s.Dump.length = 0 := h0
  rw [hd, Nat.zero_add, Nat.div_eq_of_lt (by omega)] at hl
  exact List.length_eq_zero.mp hl

/-- C6 at the demonstration handler with batches of two: stashes of two and
three documents give the batches of sizes 2, then 2 and 1. -/
theorem C6_batch_slicing_witness :
    ∃ (f1 : FlowHandler Unit Nat) (c1 : Clock), Flush 2 demoHandler (listClock [5]) = .ok (f1, c1) ∧
      f1.zmqAppQueue = [[10, 11], [20, 21], [22]] := by
  obtain ⟨f1, c1, hrun, hq, -⟩ :=
    C6_batch_slicing 2 (by decide) demoHandler (listClock [5]) (by decide)
  exact ⟨f1, c1, hrun, by rw [hq]; decide⟩

/-- C10: with a positive batch size, the batches `Flush` appends to the output
queue are the batches of stash 0, then those of stash 1, and so on; the
batches of one stash concatenate to its `Dump`, so all the batches written
concatenate to `Dump(stash 0) ++ Dump(stash 1) ++ ...`. -/
theorem C10_flush_order {S Doc : Type} (B : Nat) (hB : 0 < B) (f : FlowHandler S Doc)
    (c : Clock) (hidx : f.stashes.length + f.counterLatch ≤ f.emitCounter.length) :
    ∃ (f1 : FlowHandler S Doc) (c1 : Clock) (groups : List (List (List Doc))),
      Flush B f c = .ok (f1, c1) ∧
      f1.zmqAppQueue = f.zmqAppQueue ++ groups.flatten ∧
      groups.map List.flatten = f.stashes.map Stash.Dump ∧
      groups.flatten.flatten = (f.stashes.map Stash.Dump).flatten := by
  obtain ⟨f1, hrun, -, h2, -⟩ := Flush_spec B hB f c hidx
  have hg : (f.stashes.map (fun s => batchesOf B s.Dump)).map List.flatten =
      f.stashes.map Stash.Dump := by
    rw [List.map_map]
    apply List.map_congr_left
    intro s _
    exact batchesOf_flatten B hB s.Dump
  refine ⟨f1, c.tick, _, hrun, h2, hg, ?_⟩
  rw [List.flatten_flatten, hg]

/-- C10 at the demonstration handler with batches of two. -/
theorem C10_flush_order_witness :
    ∃ (f1 : FlowHandler Unit Nat) (c1 : Clock) (groups : List (List (List Nat))),
      Flush 2 demoHandler (listClock [5]) = .ok (f1, c1) ∧
      f1.zmqAppQueue = demoHandler.zmqAppQueue ++ groups.flatten ∧
      groups.map List.flatten = demoHandler.stashes.map Stash.Dump ∧
      groups.flatten.flatten = (demoHandler.stashes.map Stash.Dump).flatten :=
  C10_flush_order 2 (by decide) demoHandler (listClock [5]) (by decide)

/-! ## `GetCounter`, the handler invariant, and sequences of calls -/

/-- What the loop of `GetCounter` does when its indices are in range. -/
theorem getCounterLoop_spec {S Doc : Type} (oldLatch : Nat) :
    ∀ (n i : Nat) (f : FlowHandler S Doc),
      i + n ≤ f.statItems.length → i + n + oldLatch ≤ f.emitCounter.length →
      ∃ f1 : FlowHandler S Doc, getCounterLoop oldLatch n i f = .ok f1 ∧
        f1.numberOfApps = f.numberOfApps ∧ f1.processors = f.processors ∧
        f1.stashes = f.stashes ∧ f1.lastProcess = f.lastProcess ∧
        f1.zmqAppQueue = f.zmqAppQueue ∧ f1.counterLatch = f.counterLatch ∧
        f1.statItems.length = f.statItems.length ∧
        f1.emitCounter.length = f.emitCounter.length ∧
        (∀ k : Nat, k < i + oldLatch ∨ i + n + oldLatch ≤ k →
          f1.emitCounter[k]? = f.emitCounter[k]?) ∧
        (∀ k : Nat, i + oldLatch ≤ k → k < i + n + oldLatch → f1.emitCounter[k]? = some 0) ∧
        (∀ k : Nat, k < i ∨ i + n ≤ k → f1.statItems[k]? = f.statItems[k]?) ∧
        (∀ idx : Nat, idx < n →
          (f1.statItems[i + idx]?).map StatItem.Value = f.emitCounter[i + idx + oldLatch]? ∧
          (f1.statItems[i + idx]?).map StatItem.Name =
            (f.statItems[i + idx]?).map StatItem.Name) := by
  intro n
  induction n with
  | zero =>
    intro i f _ _
    exact ⟨f, rfl, rfl, rfl, rfl, rfl, rfl, rfl, rfl, rfl, fun _ _ => rfl,
      fun k h1 h2 => by omega, fun _ _ => rfl, fun idx h => by omega⟩
  | succ n ih =>
    intro i f hs he
    have his : i < f.statItems.length := by omega
    have hie : i + oldLatch < f.emitCounter.length := by omega
    obtain ⟨f1, hrun, h1, h2, h3, h4, h5, h6, h7, h8, h9, h10, h11, h12⟩ :=
      ih (i + 1)
        { f with
          statItems := f.statItems.set i { f.statItems[i] with Value := f.emitCounter[i + oldLatch] }
          emitCounter := f.emitCounter.set (i + oldLatch) 0 }
        (by simp only [List.length_set]; omega) (by simp only [List.length_set]; omega)
    dsimp only at h1 h2 h3 h4 h5 h6 h7 h8 h9 h10 h11 h12
    rw [List.length_set] at h7 h8
    refine ⟨f1, ?_, h1, h2, h3, h4, h5, h6, h7, h8, ?_, ?_, ?_, ?_⟩
    · simp only [getCounterLoop, List.getElem?_eq_getElem his, List.getElem?_eq_getElem hie]
      exact hrun
    · intro k hk
      rw [h9 k (by omega), List.getElem?_set_ne (by omega)]
    · intro k hk1 hk2
      by_cases hk : k = i + oldLatch
      · subst hk
        rw [h9 _ (by omega), List.getElem?_set_self hie]
      · exact h10 k (by omega) (by omega)
    · intro k hk
      rw [h11 k (by omega), List.getElem?_set_ne (by omega)]
    · intro idx hidx
      cases idx with
      | zero =>
        rw [Nat.add_zero, h11 i (by omega), List.getElem?_set_self his,
          List.getElem?_eq_getElem hie, List.getElem?_eq_getElem his]
        exact ⟨rfl, rfl⟩
      | succ idx =>
        have := h12 idx (by omega)
        rw [show i + (idx + 1) = i + 1 + idx by omega, this.1, this.2,
          List.getElem?_set_ne (by omega), List.getElem?_set_ne (by omega)]
        exact ⟨rfl, rfl⟩

/-- What `GetCounter` does on a well-formed handler. -/
theorem GetCounter_spec {S Doc : Type} (f : FlowHandler S Doc) (hwf : f.wellFormed) :
    ∃ f1 : FlowHandler S Doc, GetCounter f = .ok (f1.statItems, f1) ∧
      f1.wellFormed ∧
      f1.numberOfApps = f.numberOfApps ∧ f1.processors = f.processors ∧
      f1.stashes = f.stashes ∧ f1.lastProcess = f.lastProcess ∧
      f1.zmqAppQueue = f.zmqAppQueue ∧
      f1.counterLatch = (if f.counterLatch = 0 then f.numberOfApps else 0) ∧
      (∀ k : Nat, k < f.counterLatch ∨ f.numberOfApps + f.counterLatch ≤ k →
        f1.emitCounter[k]? = f.emitCounter[k]?) ∧
      (∀ k : Nat, f.counterLatch ≤ k → k < f.numberOfApps + f.counterLatch →
        f1.emitCounter[k]? = some 0) ∧
      (∀ idx : Nat, idx < f.numberOfApps →
        (f1.statItems[idx]?).map StatItem.Value = f.emitCounter[idx + f.counterLatch]? ∧
        (f1.statItems[idx]?).map StatItem.Name = (f.statItems[idx]?).map StatItem.Name) := by
  obtain ⟨hp, hs, hi, he, hl⟩ := hwf
  obtain ⟨f1, hrun, h1, h2, h3, h4, h5, h6, h7, h8, h9, h10, h11, h12⟩ :=
    getCounterLoop_spec f.counterLatch f.numberOfApps 0
      { f with counterLatch := if f.counterLatch = 0 then f.numberOfApps else 0 }
      (by dsimp only; omega) (by dsimp only; rcases hl with h | h <;> omega)
  dsimp only at h1 h2 h3 h4 h5 h6 h7 h8 h9 h10 h11 h12
  refine ⟨f1, ?_, ?_, h1, h2, h3, h4, h5, h6, ?_, ?_, ?_⟩
  · simp only [GetCounter]
    rw [hrun]
  · refine ⟨by rw [h2, h1]; exact hp, by rw [h3, h1]; exact hs, by rw [h7, h1]; exact hi,
      by rw [h8, h1]; exact he, ?_⟩
    rw [h6, h1]
    split_ifs
    · exact Or.inr rfl
    · exact Or.inl rfl
  · intro k hk
    exact h9 k (by omega)
  · intro k hk1 hk2
    exact h10 k (by omega) (by omega)
  · intro idx hidx
    have := h12 idx hidx
    simpa using this

/-- The invariant a handler keeps through its life: it is well formed and the
inactive half of its counters is zero. -/
theorem NewFlowHandler_inv {S Doc : Type} (DOCS_IN_BUFFER WINDOW_SIZE : Nat)
    (processors : List (FlowProcessor S Doc)) (q : List (List Doc)) (c : Clock) :
    (NewFlowHandler DOCS_IN_BUFFER WINDOW_SIZE processors q c).1.wellFormed ∧
      (NewFlowHandler DOCS_IN_BUFFER WINDOW_SIZE processors q c).1.inactiveZero := by
  refine ⟨⟨by simp [NewFlowHandler], by simp [NewFlowHandler], by simp [NewFlowHandler],
    by simp [NewFlowHandler]; omega, Or.inl rfl⟩, ?_⟩
  intro k hk
  simp only [NewFlowHandler] at hk ⊢
  rw [List.getElem?_replicate, if_pos (by omega)]

theorem GetCounter_inv {S Doc : Type} (f f1 : FlowHandler S Doc) (items : List StatItem)
    (hwf : f.wellFormed) (h : GetCounter f = .ok (items, f1)) :
    f1.wellFormed ∧ f1.inactiveZero ∧ f1.numberOfApps = f.numberOfApps := by
  obtain ⟨g, hrun, hwf1, h1, -, -, -, -, h6, h7, h8, -⟩ := GetCounter_spec f hwf
  rw [hrun] at h
  cases h
  refine ⟨hwf1, ?_, h1⟩
  intro k hk
  rw [h1] at hk
  obtain ⟨-, -, -, -, hl⟩ := hwf
  rcases hl with hl | hl
  · have hnew : f1.counterLatch = f.numberOfApps := by rw [h6, if_pos hl]
    rw [h1, hnew, Nat.sub_self, Nat.add_zero]
    exact h8 k (by omega) (by omega)
  · have hnew : f1.counterLatch = 0 := by rw [h6, if_neg (by omega)]
    rw [h1, hnew, Nat.sub_zero]
    exact h8 (k + f.numberOfApps) (by omega) (by omega)

theorem Flush_inv {S Doc : Type} (B : Nat) (hB : 0 < B) (f f1 : FlowHandler S Doc)
    (c c1 : Clock) (hwf : f.wellFormed) (hz : f.inactiveZero)
    (h : Flush B f c = .ok (f1, c1)) : f1.wellFormed ∧ f1.inactiveZero ∧ f1.numberOfApps = f.numberOfApps := by
  obtain ⟨hp, hs, hi, he, hl⟩ := hwf
  obtain ⟨g, hrun, h1, -, h3, h4, -, h6, h7, h8, h9, -⟩ :=
    Flush_spec B hB f c (by rcases hl with h | h <;> omega)
  rw [hrun] at h
  cases h
  refine ⟨⟨by rw [h4, h3]; exact hp, by rw [h1, h3, List.length_map]; exact hs,
    by rw [h7, h3]; exact hi, by rw [h8, h3]; exact he, by rw [h6, h3]; exact hl⟩, ?_, h3⟩
  intro k hk
  rw [h3] at hk
  rw [h3, h6, h9 _ (by rcases hl with h | h <;> omega)]
  exact hz k hk

theorem retryLoop_inv {S Doc : Type} (B : Nat) (hB : 0 < B) (i : Nat) :
    ∀ (fuel : Nat) (docs : List Doc) (f : FlowHandler S Doc) (c : Clock) (r : RetryResult S Doc),
      f.wellFormed → f.inactiveZero → retryLoop B i fuel docs f c = .ok r →
      r.handler.wellFormed ∧ r.handler.inactiveZero ∧
        r.handler.numberOfApps = f.numberOfApps := by
  intro fuel
  induction fuel with
  | zero =>
    intro docs f c r _ _ h
    simp [retryLoop] at h
  | succ fuel ih =>
    intro docs f c r hwf hz h
    simp only [retryLoop] at h
    split at h
    · cases h
    · rename_i stash hst
      have hwf1 : ({ f with stashes := f.stashes.set i (stash.Add docs).1 } :
          FlowHandler S Doc).wellFormed := by
        obtain ⟨hp, hs, hi, he, hl⟩ := hwf
        exact ⟨hp, by simpa using hs, hi, he, hl⟩
      have hz1 : ({ f with stashes := f.stashes.set i (stash.Add docs).1 } :
          FlowHandler S Doc).inactiveZero := hz
      split at h
      · cases h
        exact ⟨hwf1, hz1, rfl⟩
      · split at h
        · cases h
        · rename_i f2 c2 hfl
          obtain ⟨hwf2, hz2, hn2⟩ := Flush_inv B hB _ f2 c c2 hwf1 hz1 hfl
          split at h
          · cases h
          · rename_i r1 hr
            cases h
            obtain ⟨hwf3, hz3, hn3⟩ := ih _ f2 c2 r1 hwf2 hz2 hr
            exact ⟨hwf3, hz3, hn3.trans hn2⟩

theorem processLoop_inv {S Doc : Type} (B : Nat) (hB : 0 < B) (fuel : Nat) (flow : TaggedFlow) :
    ∀ (rest : List (FlowProcessor S Doc)) (i : Nat) (f f1 : FlowHandler S Doc) (c c1 : Clock),
      f.wellFormed → f.inactiveZero → processLoop B fuel flow rest i f c = .ok (f1, c1) →
      f1.wellFormed ∧ f1.inactiveZero ∧ f1.numberOfApps = f.numberOfApps := by
  intro rest
  induction rest with
  | nil =>
    intro i f f1 c c1 hwf hz h
    simp only [processLoop] at h
    cases h
    exact ⟨hwf, hz, rfl⟩
  | cons p rest ih =>
    intro i f f1 c c1 hwf hz h
    simp only [processLoop] at h
    split at h
    · cases h
    · rename_i r hr
      have hwf1 : ({ f with processors := f.processors.set i (p.Process flow false).1 } :
          FlowHandler S Doc).wellFormed := by
        obtain ⟨hp, hs, hi, he, hl⟩ := hwf
        exact ⟨by simpa using hp, hs, hi, he, hl⟩
      obtain ⟨hwf2, hz2, hn2⟩ := retryLoop_inv B hB i fuel _ _ c r hwf1 hz hr
      obtain ⟨hwf3, hz3, hn3⟩ := ih (i + 1) r.handler f1 r.clock c1 hwf2 hz2 h
      exact ⟨hwf3, hz3, hn3.trans hn2⟩

theorem Process_inv {S Doc : Type} (B : Nat) (hB : 0 < B) (fuel : Nat) (flow : TaggedFlow)
    (f f1 : FlowHandler S Doc) (c c1 : Clock) (e : Option String)
    (hwf : f.wellFormed) (hz : f.inactiveZero)
    (h : Process B fuel f c flow = .ok (e, f1, c1)) : f1.wellFormed ∧ f1.inactiveZero ∧ f1.numberOfApps = f.numberOfApps := by
  unfold Process at h
  split at h
  · cases h
    exact ⟨hwf, hz, rfl⟩
  · split at h
    · cases h
    · rename_i f2 c2 hp
      cases h
      exact processLoop_inv B hB fuel flow _ 0 f f2 c.tick c2 hwf hz hp

theorem step_inv {S Doc : Type} (B : Nat) (hB : 0 < B) (w w1 : World S Doc) (call : Call)
    (hwf : w.handler.wellFormed) (hz : w.handler.inactiveZero)
    (h : w.step B call = .ok w1) :
    w1.handler.wellFormed ∧ w1.handler.inactiveZero ∧
      w1.handler.numberOfApps = w.handler.numberOfApps := by
  cases call with
  | process fuel flow =>
    simp only [World.step] at h
    split at h
    · cases h
    · rename_i f c hp
      cases h
      exact Process_inv B hB fuel flow _ f _ c none hwf hz hp
    · rename_i e f c hp
      cases h
      exact Process_inv B hB fuel flow _ f _ c (some e) hwf hz hp
  | flush =>
    simp only [World.step] at h
    split at h
    · cases h
    · rename_i f c hp
      cases h
      exact Flush_inv B hB _ f _ c hwf hz hp
  | getCounter =>
    simp only [World.step] at h
    split at h
    · cases h
    · rename_i items f hp
      cases h
      exact GetCounter_inv _ f items hwf hp

theorem run_inv {S Doc : Type} (B : Nat) (hB : 0 < B) :
    ∀ (calls : List Call) (w w1 : World S Doc),
      w.handler.wellFormed → w.handler.inactiveZero → World.run B w calls = .ok w1 →
      w1.handler.wellFormed ∧ w1.handler.inactiveZero ∧
        w1.handler.numberOfApps = w.handler.numberOfApps := by
  intro calls
  induction calls with
  | nil =>
    intro w w1 hwf hz h
    simp only [World.run] at h
    cases h
    exact ⟨hwf, hz, rfl⟩
  | cons call rest ih =>
    intro w w1 hwf hz h
    simp only [World.run] at h
    split at h
    · cases h
    · rename_i w2 hs
      obtain ⟨hwf2, hz2, hn2⟩ := step_inv B hB w w2 call hwf hz hs
      obtain ⟨hwf3, hz3, hn3⟩ := ih w2 w1 hwf2 hz2 h
      exact ⟨hwf3, hz3, hn3.trans hn2⟩

theorem Reachable_inv {S Doc : Type} (B : Nat) (hB : 0 < B) (DOCS_IN_BUFFER WINDOW_SIZE : Nat)
    (processors : List (FlowProcessor S Doc)) (w : World S Doc)
    (h : Reachable B DOCS_IN_BUFFER WINDOW_SIZE processors w) :
    w.handler.wellFormed ∧ w.handler.inactiveZero ∧
      w.handler.numberOfApps = processors.length := by
  obtain ⟨q0, c0, calls, hrun⟩ := h
  obtain ⟨hwf, hz⟩ := NewFlowHandler_inv DOCS_IN_BUFFER WINDOW_SIZE processors q0 c0
  obtain ⟨h1, h2, h3⟩ := run_inv B hB calls _ w hwf hz hrun
  exact ⟨h1, h2, h3⟩

/-- C7: in a handler reached from `NewFlowHandler` by `Process`, `Flush` and
`GetCounter` calls, with a positive batch size, the calls `GetCounter`,
`Flush`, `GetCounter` in a row all return; if the stash of processor `i`
held `d` documents at the `Flush` (the documents that `Flush` wrote for
processor `i`, with `d` below `2 ^ 64` as any slice length is), the second
`GetCounter` reports the value `d` for processor `i`, and the counter slot it
read is 0 afterwards. -/
theorem C7_counter_handoff {S Doc : Type} (B : Nat) (hB : 0 < B)
    (DOCS_IN_BUFFER WINDOW_SIZE : Nat) (processors : List (FlowProcessor S Doc))
    (w : World S Doc) (hreach : Reachable B DOCS_IN_BUFFER WINDOW_SIZE processors w)
    (c : Clock) (i : Nat) (hi : i < processors.length) :
    ∃ (items1 : List StatItem) (f1 f2 : FlowHandler S Doc) (c2 : Clock)
      (items2 : List StatItem) (f3 : FlowHandler S Doc) (s : Stash Doc),
      GetCounter w.handler = .ok (items1, f1) ∧
      Flush B f1 c = .ok (f2, c2) ∧
      GetCounter f2 = .ok (items2, f3) ∧
      f1.stashes[i]? = some s ∧
      f2.zmqAppQueue =
        f1.zmqAppQueue ++ (f1.stashes.map (fun t => batchesOf B t.Dump)).flatten ∧
      ((batchesOf B s.Dump).map List.length).sum = s.docs.length ∧
      (s.docs.length < 2 ^ 64 → (items2[i]?).map StatItem.Value = some s.docs.length) ∧
      f3.emitCounter[i + f2.counterLatch]? = some 0 := by
  obtain ⟨hwf, hz, hN⟩ := Reachable_inv B hB DOCS_IN_BUFFER WINDOW_SIZE processors w hreach
  rw [← hN] at hi
  obtain ⟨f1, hg1, hwf1, a1, -, a3, -, -, a6, a7, -, -⟩ := GetCounter_spec w.handler hwf
  obtain ⟨-, hz1, -⟩ := GetCounter_inv _ f1 _ hwf hg1
  have hwf1c := hwf1
  obtain ⟨-, hs1, -, he1, hl1⟩ := hwf1
  obtain ⟨f2, hfl, -, b2, b3, -, -, b6, -, -, -, b10⟩ :=
    Flush_spec B hB f1 c (by rcases hl1 with h | h <;> omega)
  obtain ⟨hwf2, -, -⟩ := Flush_inv B hB f1 f2 c c.tick hwf1c hz1 hfl
  obtain ⟨f3, hg2, -, -, -, -, -, -, -, -, d8, d9⟩ := GetCounter_spec f2 hwf2
  have hlen : i < f1.stashes.length := by omega
  refine ⟨f1.statItems, f1, f2, c.tick, f3.statItems, f3, f1.stashes[i], hg1, hfl, hg2,
    List.getElem?_eq_getElem hlen, b2, ?_, ?_, ?_⟩
  · rw [← List.length_flatten, batchesOf_flatten B hB]
    rfl
  · intro hd
    rw [(d9 i (by omega)).1, b6, b10 i _ (List.getElem?_eq_getElem hlen)]
    -- the active half of `f1` is the half that was inactive before, all zero
    have hzero : f1.emitCounter[i + f1.counterLatch]? = some 0 := by
      obtain ⟨-, -, -, -, hl⟩ := hwf
      rcases hl with hl | hl
      · have hnew : f1.counterLatch = w.handler.numberOfApps := by rw [a6, if_pos hl]
        rw [hnew, a7 _ (by omega)]
        have := hz i hi
        rw [hl, Nat.sub_zero] at this
        exact this
      · have hnew : f1.counterLatch = 0 := by rw [a6, if_neg (by omega)]
        rw [hnew, a7 _ (by omega)]
        have := hz i hi
        rw [hl, Nat.sub_self] at this
        exact this
    rw [List.getD_eq_getElem?_getD, hzero]
    simp only [Option.getD_some, Nat.zero_add]
    rw [Nat.mod_eq_of_lt hd]
  · exact d8 _ (by omega) (by omega)

/-- C7 at the world reached by one `Process`, whose stashes hold one and three
documents: for the second processor the `Flush` emits three documents and the
second `GetCounter` reports 3. -/
theorem C7_counter_handoff_witness :
    ∃ (items1 : List StatItem) (f1 f2 : FlowHandler Unit Nat) (c2 : Clock)
      (items2 : List StatItem) (f3 : FlowHandler Unit Nat) (s : Stash Nat),
      GetCounter doneWorld.handler = .ok (items1, f1) ∧
      Flush 2 f1 (listClock [5]) = .ok (f2, c2) ∧
      GetCounter f2 = .ok (items2, f3) ∧
      f1.stashes[1]? = some s ∧
      s.docs.length = 3 ∧
      f2.zmqAppQueue =
        f1.zmqAppQueue ++ (f1.stashes.map (fun t => batchesOf 2 t.Dump)).flatten ∧
      ((batchesOf 2 s.Dump).map List.length).sum = 3 ∧
      (items2[1]?).map StatItem.Value = some 3 ∧
      f3.emitCounter[1 + f2.counterLatch]? = some 0 := by
  obtain ⟨items1, f1, f2, c2, items2, f3, s, hg1, hfl, hg2, hs, hq, hsum, hval, hzero⟩ :=
    C7_counter_handoff 2 (by decide) 4 60 demoProcessors doneWorld
      ⟨[], listClock [0, 0, 0, 70 * Second], doneCalls, rfl⟩ (listClock [5]) 1 (by decide)
  have hlens : (match GetCounter doneWorld.handler with
      | .ok r => r.2.stashes.map (fun t => t.docs.length)
      | .error _ => []) = [1, 3] := by decide
  rw [hg1] at hlens
  simp only at hlens
  have h3 : s.docs.length = 3 := by
    have := congrArg (fun l => l[1]?) hlens
    simp only [List.getElem?_map, hs] at this
    simpa using this
  rw [h3] at hsum hval
  exact ⟨items1, f1, f2, c2, items2, f3, s, hg1, hfl, hg2, hs, h3, hq, hsum,
    hval (by decide), hzero⟩

/-! ## `NeedFlush` and the idle threshold -/

theorem getCounterLoop_lastProcess {S Doc : Type} (oldLatch : Nat) :
    ∀ (n i : Nat) (f f1 : FlowHandler S Doc),
      getCounterLoop oldLatch n i f = .ok f1 → f1.lastProcess = f.lastProcess := by
  intro n
  induction n with
  | zero =>
    intro i f f1 h
    simp only [getCounterLoop] at h
    cases h
    rfl
  | succ n ih =>
    intro i f f1 h
    simp only [getCounterLoop] at h
    split at h
    · have := ih _ _ _ h
      exact this
    · cases h

theorem GetCounter_lastProcess {S Doc : Type} (f f1 : FlowHandler S Doc)
    (items : List StatItem) (h : GetCounter f = .ok (items, f1)) :
    f1.lastProcess = f.lastProcess := by
  simp only [GetCounter] at h
  split at h
  · cases h
  · rename_i f2 hl
    cases h
    have := getCounterLoop_lastProcess _ _ _ _ _ hl
    exact this

theorem Process_ok_none {S Doc : Type} (B fuel : Nat) (f f1 : FlowHandler S Doc) (c c1 : Clock)
    (flow : TaggedFlow) (h : Process B fuel f c flow = .ok (none, f1, c1)) :
    f1.lastProcess = c1.readings (c1.pos - 1) := by
  unfold Process at h
  split at h
  · cases h
  · split at h
    · cases h
    · cases h
      simp [Clock.tick, Clock.now]

theorem Process_ok_some {S Doc : Type} (B fuel : Nat) (f f1 : FlowHandler S Doc) (c c1 : Clock)
    (flow : TaggedFlow) (e : String) (h : Process B fuel f c flow = .ok (some e, f1, c1)) :
    f1 = f := by
  unfold Process at h
  split at h
  · cases h
    rfl
  · split at h
    · cases h
    · cases h

/-- While no `Flush` has run since the last accepting `Process`, the field
`lastProcess` is the reading at which that `Process` completed. -/
theorem step_lastDone {S Doc : Type} (B : Nat) (w w1 : World S Doc) (call : Call)
    (hinv : ∀ T : Int, w.lastDone = some T → w.flushedSince = false →
      w.handler.lastProcess = T)
    (h : w.step B call = .ok w1) :
    ∀ T : Int, w1.lastDone = some T → w1.flushedSince = false →
      w1.handler.lastProcess = T := by
  cases call with
  | process fuel flow =>
    simp only [World.step] at h
    split at h
    · cases h
    · rename_i f c hp
      cases h
      intro T hT _
      simp only [Option.some.injEq] at hT
      rw [← hT]
      exact Process_ok_none B fuel _ f _ c flow hp
    · rename_i e f c hp
      cases h
      rw [Process_ok_some B fuel _ f _ c flow e hp]
      exact hinv
  | flush =>
    simp only [World.step] at h
    split at h
    · cases h
    · cases h
      intro T _ hf
      cases hf
  | getCounter =>
    simp only [World.step] at h
    split at h
    · cases h
    · rename_i items f hg
      cases h
      intro T hT hf
      rw [GetCounter_lastProcess _ _ _ hg]
      exact hinv T hT hf

theorem run_lastDone {S Doc : Type} (B : Nat) :
    ∀ (calls : List Call) (w w1 : World S Doc),
      (∀ T : Int, w.lastDone = some T → w.flushedSince = false →
        w.handler.lastProcess = T) →
      World.run B w calls = .ok w1 →
      ∀ T : Int, w1.lastDone = some T → w1.flushedSince = false →
        w1.handler.lastProcess = T := by
  intro calls
  induction calls with
  | nil =>
    intro w w1 hinv h
    simp only [World.run] at h
    cases h
    exact hinv
  | cons call rest ih =>
    intro w w1 hinv h
    simp only [World.run] at h
    split at h
    · cases h
    · rename_i w2 hs
      exact ih w2 w1 (step_lastDone B w w2 call hinv hs) h

/-- C9, as stated, fails once a `Flush` has run.  The handler is built at
reading 0 and processes a flow that completes at reading 0; a `Flush` runs at
70 seconds; at 100 seconds, more than a minute after the most recent `Process`
completed, `NeedFlush` returns false. -/
theorem C9_counterexample :
    World.run 2 idleStart idleCalls = .ok idleWorld ∧
      idleWorld.lastDone = some 0 ∧
      (listClock [100 * Second]).now - 0 > Minute ∧
      (NeedFlush idleWorld.handler (listClock [100 * Second])).1 = false := by
  refine ⟨rfl, rfl, by decide, by decide⟩

/-- C9, amended: in every handler reached from `NewFlowHandler` by `Process`,
`Flush` and `GetCounter` calls and at every reading `now`, `NeedFlush` is true
exactly when `now - lastProcess` exceeds one minute (the subtraction not
overflowing); and if the most recent accepting `Process` completed at `T`, no
`Flush` has been called since, and `now - T` exceeds one minute without
overflowing, `NeedFlush` returns true. -/
theorem C9_need_flush {S Doc : Type} (B DOCS_IN_BUFFER WINDOW_SIZE : Nat)
    (processors : List (FlowProcessor S Doc)) (w : World S Doc)
    (hreach : Reachable B DOCS_IN_BUFFER WINDOW_SIZE processors w) (c : Clock) :
    (inInt64 (c.now - w.handler.lastProcess) →
      ((NeedFlush w.handler c).1 = true ↔ c.now - w.handler.lastProcess > Minute)) ∧
    (∀ T : Int, w.lastDone = some T → w.flushedSince = false → inInt64 (c.now - T) →
      c.now - T > Minute → (NeedFlush w.handler c).1 = true) := by
  obtain ⟨q0, c0, calls, hrun⟩ := hreach
  have hinv := run_lastDone B calls _ w (by intro T hT; cases hT) hrun
  constructor
  · intro hr
    simp only [NeedFlush, decide_eq_true_eq]
    rw [wrap64_of_inInt64 _ hr]
  · intro T hT hf hr hgt
    simp only [NeedFlush, decide_eq_true_eq]
    rw [hinv T hT hf, wrap64_of_inInt64 _ hr]
    exact hgt

/-- The amended C9 at the world reached by one `Process` completed at reading
0: at 100 seconds `NeedFlush` is true. -/
theorem C9_need_flush_witness :
    (NeedFlush doneWorld.handler (listClock [100 * Second])).1 = true :=
  (C9_need_flush 2 4 60 demoProcessors doneWorld
    ⟨[], listClock [0, 0, 0, 70 * Second], doneCalls, rfl⟩ (listClock [100 * Second])).2
    0 rfl rfl (by decide) (by decide)

/-! ## The retry loop of `Process` -/

theorem Stash.Add_fst {Doc : Type} (s : Stash Doc) (docs : List Doc) :
    (s.Add docs).1 = { s with docs := s.docs ++ docs.take (s.capacity - s.docs.length) } := by
  unfold Stash.Add
  dsimp only
  split_ifs <;> rfl

theorem Stash.Add_snd_none {Doc : Type} (s : Stash Doc) (docs : List Doc)
    (h : docs.length ≤ s.capacity - s.docs.length) : (s.Add docs).2 = none := by
  unfold Stash.Add
  simp only [if_pos h]

theorem Stash.Add_snd_some {Doc : Type} (s : Stash Doc) (docs : List Doc)
    (h : ¬ docs.length ≤ s.capacity - s.docs.length) :
    (s.Add docs).2 = some (docs.drop (s.capacity - s.docs.length)) := by
  unfold Stash.Add
  simp only [if_neg h]

/-- The retry loop from a stash of capacity `C` holding `m ≤ C` documents,
given `k` documents: it ends after at most `(m + k - 1) / C` flushes. -/
theorem retryLoop_terminates {S Doc : Type} (B : Nat) (hB : 0 < B) (i C : Nat) (hC : 0 < C) :
    ∀ (fuel : Nat) (docs : List Doc) (f : FlowHandler S Doc) (c : Clock) (s : Stash Doc),
      f.stashes.length + f.counterLatch ≤ f.emitCounter.length →
      f.stashes[i]? = some s → s.capacity = C → s.docs.length ≤ C →
      (s.docs.length + docs.length - 1) / C + 1 ≤ fuel →
      ∃ r : RetryResult S Doc, retryLoop B i fuel docs f c = .ok r ∧
        r.flushes ≤ (s.docs.length + docs.length - 1) / C ∧
        ∀ g ∈ r.observed, ∀ t : Stash Doc, g.stashes[i]? = some t →
          t.capacity = C ∧ t.docs.length ≤ C := by
  intro fuel
  induction fuel with
  | zero =>
    intro docs f c s _ _ _ _ hfuel
    exact absurd hfuel (Nat.not_succ_le_zero _)
  | succ fuel ih =>
    intro docs f c s hidx hs hcap hfill hfuel
    have hi : i < f.stashes.length := by
      by_contra hcon
      rw [List.getElem?_eq_none (by omega)] at hs
      cases hs
    have hset : (f.stashes.set i (s.Add docs).1)[i]? = some (s.Add docs).1 :=
      List.getElem?_set_self hi
    have hadd1 : (s.Add docs).1.capacity = C ∧ (s.Add docs).1.docs.length ≤ C := by
      rw [Stash.Add_fst]
      simp only [List.length_append, List.length_take]
      omega
    by_cases hfit : docs.length ≤ s.capacity - s.docs.length
    · refine ⟨RetryResult.mk { f with stashes := f.stashes.set i (s.Add docs).1 } c 0
          [{ f with stashes := f.stashes.set i (s.Add docs).1 }], ?_, ?_, ?_⟩
      · simp only [retryLoop, hs]
        rw [Stash.Add_snd_none s docs hfit]
      · exact Nat.zero_le _
      · intro g hg t ht
        simp only [List.mem_singleton] at hg
        subst hg
        rw [hset] at ht
        cases ht
        exact hadd1
    · obtain ⟨f2, hfl, h1, -, -, -, -, h6, -, h8, -, -⟩ :=
        Flush_spec B hB ({ f with stashes := f.stashes.set i (s.Add docs).1 }) c
          (by simpa using hidx)
      dsimp only at h1 h6 h8
      have hs2 : f2.stashes[i]? = some (s.Add docs).1.Clear := by
        rw [h1, List.getElem?_map, hset]
        rfl
      have hdiv : (s.docs.length + docs.length - 1) / C =
          (docs.length - (s.capacity - s.docs.length) - 1) / C + 1 := by
        rw [← Nat.add_div_right _ hC]
        congr 1
        omega
      obtain ⟨r, hrun, hfl2, hobs⟩ :=
        ih (docs.drop (s.capacity - s.docs.length)) f2 c.tick (s.Add docs).1.Clear
          (by rw [h1, h6, h8]; simpa using hidx) hs2 hadd1.1 (Nat.zero_le _)
          (by
            simp only [Stash.Clear, List.length_nil, Nat.zero_add, List.length_drop]
            omega)
      simp only [Stash.Clear, List.length_nil, Nat.zero_add, List.length_drop] at hfl2
      refine ⟨RetryResult.mk r.handler r.clock (r.flushes + 1)
          ({ f with stashes := f.stashes.set i (s.Add docs).1 } :: f2 :: r.observed),
        ?_, ?_, ?_⟩
      · simp only [retryLoop, hs]
        rw [Stash.Add_snd_some s docs hfit]
        simp only [hfl, hrun]
      · simp only
        omega
      · intro g hg t ht
        simp only [List.mem_cons] at hg
        rcases hg with hg | hg | hg
        · subst hg
          rw [hset] at ht
          cases ht
          exact hadd1
        · subst hg
          rw [hs2] at ht
          cases ht
          exact ⟨hadd1.1, Nat.zero_le _⟩
        · exact hobs g hg t ht

/-- C8: given a positive batch size and a stash `i` of capacity `C > 0` that
holds at most `C` documents, the retry loop of `Process`, handed the `k`
documents processor `i` returned (any `k`, in particular `k > C`), returns
once the fuel allows `(k + C - 1) / C + 1` calls of `Add`; it calls `Flush`
at most `(k + C - 1) / C` times (the ceiling of `k / C`), and after every
`Add` and every `Flush` stash `i` holds at most `C` documents. -/
theorem C8_overflow_loop {S Doc : Type} (B : Nat) (hB : 0 < B) (i C : Nat) (hC : 0 < C)
    (fuel : Nat) (docs : List Doc) (f : FlowHandler S Doc) (c : Clock) (s : Stash Doc)
    (hidx : f.stashes.length + f.counterLatch ≤ f.emitCounter.length)
    (hs : f.stashes[i]? = some s) (hcap : s.capacity = C) (hfill : s.docs.length ≤ C)
    (hfuel : (docs.length + C - 1) / C + 1 ≤ fuel) :
    ∃ r : RetryResult S Doc, retryLoop B i fuel docs f c = .ok r ∧
      r.flushes ≤ (docs.length + C - 1) / C ∧
      ∀ g ∈ r.observed, ∀ t : Stash Doc, g.stashes[i]? = some t →
        t.capacity = C ∧ t.docs.length ≤ C := by
  have hle : (s.docs.length + docs.length - 1) / C ≤ (docs.length + C - 1) / C :=
    Nat.div_le_div_right (by omega)
  obtain ⟨r, hrun, hfl, hobs⟩ :=
    retryLoop_terminates B hB i C hC fuel docs f c s hidx hs hcap hfill (by omega)
  exact ⟨r, hrun, by omega, hobs⟩

/-- C8 at the demonstration handler: nine documents for stash 0, of capacity
four and holding two. -/
theorem C8_overflow_loop_witness :
    ∃ r : RetryResult Unit Nat,
      retryLoop 2 0 4 (List.replicate 9 7) demoHandler (listClock []) = .ok r ∧
      r.flushes ≤ (((List.replicate 9 7 : List Nat)).length + 4 - 1) / 4 ∧
      ∀ g ∈ r.observed, ∀ t : Stash Nat, g.stashes[0]? = some t →
        t.capacity = 4 ∧ t.docs.length ≤ 4 :=
  C8_overflow_loop 2 (by decide) 0 4 (by decide) 4 (List.replicate 9 7) demoHandler
    (listClock []) { capacity := 4, window := 60, docs := [10, 11] } (by decide) rfl rfl
    (by decide) (by decide)

/-! ## More claims on `isValidFlow` -/

/-- C13, as stated, fails: a flow from 1 ns to 1 ns + 3 minutes, read at its
end, with every activity timestamp at its start, lasts less than
`2 * windowMargin` and is rejected. -/
theorem C13_counterexample :
    0 < (mkFlow 1 (1 + 3 * Minute) 1 1 1).StartTime ∧
      (mkFlow 1 (1 + 3 * Minute) 1 1 1).StartTime ≤ (mkFlow 1 (1 + 3 * Minute) 1 1 1).EndTime ∧
      (mkFlow 1 (1 + 3 * Minute) 1 1 1).EndTime ≤ 1 + 3 * Minute ∧
      (mkFlow 1 (1 + 3 * Minute) 1 1 1).EndTime ≤
        (mkFlow 1 (1 + 3 * Minute) 1 1 1).StartTime + 2 * windowMargin ∧
      (mkFlow 1 (1 + 3 * Minute) 1 1 1).CurStartTime ≤ (mkFlow 1 (1 + 3 * Minute) 1 1 1).EndTime ∧
      (mkFlow 1 (1 + 3 * Minute) 1 1 1).CurStartTime ≤ 1 + 3 * Minute ∧
      (mkFlow 1 (1 + 3 * Minute) 1 1 1).FlowMetricsPeerSrc.ArrTimeLast ≤
        (mkFlow 1 (1 + 3 * Minute) 1 1 1).EndTime ∧
      (mkFlow 1 (1 + 3 * Minute) 1 1 1).FlowMetricsPeerSrc.ArrTimeLast ≤ 1 + 3 * Minute ∧
      (mkFlow 1 (1 + 3 * Minute) 1 1 1).FlowMetricsPeerDst.ArrTimeLast ≤
        (mkFlow 1 (1 + 3 * Minute) 1 1 1).EndTime ∧
      (mkFlow 1 (1 + 3 * Minute) 1 1 1).FlowMetricsPeerDst.ArrTimeLast ≤ 1 + 3 * Minute ∧
      isValidFlow (mkFlow 1 (1 + 3 * Minute) 1 1 1) (1 + 3 * Minute) = false := by
  decide

/-- C13, amended: the duration threshold of `isValidFlow` is `windowMargin`,
two minutes.  When neither addition of the code overflows, a flow with
`0 < startTime ≤ endTime ≤ now`, `endTime ≤ startTime + 2 minutes` and all
three activity timestamps at most `endTime` and at most `now` is accepted, and
a flow with `endTime > startTime + 2 minutes` is rejected. -/
theorem C13_duration_threshold (flow : TaggedFlow) (now : Int)
    (hs : inInt64 (flow.StartTime + 2 * Minute)) (he : inInt64 (flow.EndTime + 2 * Minute)) :
    (0 < flow.StartTime → flow.StartTime ≤ flow.EndTime → flow.EndTime ≤ now →
      flow.EndTime ≤ flow.StartTime + windowMargin →
      flow.CurStartTime ≤ flow.EndTime → flow.CurStartTime ≤ now →
      flow.FlowMetricsPeerSrc.ArrTimeLast ≤ flow.EndTime →
      flow.FlowMetricsPeerSrc.ArrTimeLast ≤ now →
      flow.FlowMetricsPeerDst.ArrTimeLast ≤ flow.EndTime →
      flow.FlowMetricsPeerDst.ArrTimeLast ≤ now →
      isValidFlow flow now = true) ∧
    (flow.EndTime > flow.StartTime + windowMargin → isValidFlow flow now = false) := by
  constructor
  · intro h0 h1 h2 hd hc hcn ha0 ha0n ha1 ha1n
    rw [isValidFlow_eq_true_iff, wrap64_of_inInt64 _ hs, wrap64_of_inInt64 _ he]
    unfold windowMargin at hd
    unfold Minute Second at *
    omega
  · intro hd
    rw [← Bool.not_eq_true, isValidFlow_eq_true_iff, wrap64_of_inInt64 _ hs]
    unfold windowMargin at hd
    omega

/-- The amended C13 at a flow of exactly two minutes, accepted, and at the
flow of three minutes, rejected. -/
theorem C13_duration_threshold_witness :
    isValidFlow (mkFlow 1 (1 + 2 * Minute) 1 1 1) (1 + 2 * Minute) = true ∧
      isValidFlow (mkFlow 1 (1 + 3 * Minute) 1 1 1) (1 + 3 * Minute) = false :=
  ⟨(C13_duration_threshold (mkFlow 1 (1 + 2 * Minute) 1 1 1) (1 + 2 * Minute)
      (by decide) (by decide)).1 (by decide) (by decide) (by decide) (by decide) (by decide)
      (by decide) (by decide) (by decide) (by decide) (by decide),
    (C13_duration_threshold (mkFlow 1 (1 + 3 * Minute) 1 1 1) (1 + 3 * Minute)
      (by decide) (by decide)).2 (by decide)⟩

/-- C18, as stated, fails at the top of `int64`: the open flow started at
`2 ^ 63 - 1` with activity timestamps 0, read at `2 ^ 63 - 1`, has
`0 ≤ startTime ≤ now` and its three timestamps at most two minutes and at most
`now`, and is rejected, because `startTime + 2 minutes` wraps around. -/
theorem C18_counterexample :
    (mkFlow (2 ^ 63 - 1) 0 0 0 0).inRange ∧ inInt64 (2 ^ 63 - 1) ∧
      (mkFlow (2 ^ 63 - 1) 0 0 0 0).EndTime = 0 ∧
      0 ≤ (mkFlow (2 ^ 63 - 1) 0 0 0 0).StartTime ∧
      (mkFlow (2 ^ 63 - 1) 0 0 0 0).StartTime ≤ 2 ^ 63 - 1 ∧
      (mkFlow (2 ^ 63 - 1) 0 0 0 0).CurStartTime ≤ min (2 * Minute) (2 ^ 63 - 1) ∧
      (mkFlow (2 ^ 63 - 1) 0 0 0 0).FlowMetricsPeerSrc.ArrTimeLast ≤
        min (2 * Minute) (2 ^ 63 - 1) ∧
      (mkFlow (2 ^ 63 - 1) 0 0 0 0).FlowMetricsPeerDst.ArrTimeLast ≤
        min (2 * Minute) (2 ^ 63 - 1) ∧
      isValidFlow (mkFlow (2 ^ 63 - 1) 0 0 0 0) (2 ^ 63 - 1) = false := by
  decide

/-- C18, amended: for an open flow (`endTime = 0`) whose `startTime` is an
`int64`, acceptance implies that the three activity timestamps are at most two
minutes and `startTime ≥ -2 minutes`; and an open flow with
`0 ≤ startTime ≤ now`, `startTime + 2 minutes` within `int64`, and the three
activity timestamps at most `min (2 minutes) now` is accepted. -/
theorem C18_open_flow (flow : TaggedFlow) (now : Int) (hopen : flow.EndTime = 0) :
    (inInt64 flow.StartTime → isValidFlow flow now = true →
      flow.CurStartTime ≤ 2 * Minute ∧ flow.FlowMetricsPeerSrc.ArrTimeLast ≤ 2 * Minute ∧
        flow.FlowMetricsPeerDst.ArrTimeLast ≤ 2 * Minute ∧ flow.StartTime ≥ -(2 * Minute)) ∧
    (inInt64 (flow.StartTime + 2 * Minute) → 0 ≤ flow.StartTime → flow.StartTime ≤ now →
      flow.CurStartTime ≤ min (2 * Minute) now →
      flow.FlowMetricsPeerSrc.ArrTimeLast ≤ min (2 * Minute) now →
      flow.FlowMetricsPeerDst.ArrTimeLast ≤ min (2 * Minute) now →
      isValidFlow flow now = true) := by
  have hm : wrap64 (0 + 2 * Minute) = 2 * Minute := by decide
  constructor
  · intro hr hv
    rw [isValidFlow_eq_true_iff, hopen, hm] at hv
    unfold inInt64 at hr
    unfold wrap64 Minute Second at *
    omega
  · intro hs h0 h1 hc ha0 ha1
    rw [isValidFlow_eq_true_iff, hopen, hm, wrap64_of_inInt64 _ hs]
    unfold Minute Second at *
    omega

/-- The amended C18 at an open flow started one second after the epoch and
read at three minutes. -/
theorem C18_open_flow_witness :
    isValidFlow (mkFlow Second 0 Minute Minute Minute) (3 * Minute) = true :=
  (C18_open_flow (mkFlow Second 0 Minute Minute Minute) (3 * Minute) rfl).2
    (by decide) (by decide) (by decide) (by decide) (by decide) (by decide)

/-- C17: in every world reached from `NewFlowHandler` over `N` processors by
`Process`, `Flush` and `GetCounter` calls (batch size positive), the latch is
0 or `N`, `emitCounter` has length `2 * N`, every index `i + counterLatch`
with `i < N` is in bounds, and every entry of the half the latch does not
select is 0. -/
theorem C17_counter_invariant {S Doc : Type} (B : Nat) (hB : 0 < B)
    (DOCS_IN_BUFFER WINDOW_SIZE : Nat) (processors : List (FlowProcessor S Doc))
    (w : World S Doc) (hreach : Reachable B DOCS_IN_BUFFER WINDOW_SIZE processors w) :
    (w.handler.counterLatch = 0 ∨ w.handler.counterLatch = processors.length) ∧
      w.handler.emitCounter.length = 2 * processors.length ∧
      (∀ i : Nat, i < processors.length →
        i + w.handler.counterLatch < w.handler.emitCounter.length) ∧
      (∀ i : Nat, i < processors.length →
        w.handler.emitCounter[i + (processors.length - w.handler.counterLatch)]? = some 0) := by
  obtain ⟨⟨-, -, -, he, hl⟩, hz, hN⟩ :=
    Reachable_inv B hB DOCS_IN_BUFFER WINDOW_SIZE processors w hreach
  rw [hN] at he hl
  refine ⟨hl, he, ?_, ?_⟩
  · intro i hi
    rcases hl with h | h <;> omega
  · intro i hi
    have := hz i (by omega)
    rw [hN] at this
    exact this

/-- C17 at the world reached by one `Process` and one `Flush`. -/
theorem C17_counter_invariant_witness :
    (idleWorld.handler.counterLatch = 0 ∨ idleWorld.handler.counterLatch = demoProcessors.length) ∧
      idleWorld.handler.emitCounter.length = 2 * demoProcessors.length ∧
      (∀ i : Nat, i < demoProcessors.length →
        i + idleWorld.handler.counterLatch < idleWorld.handler.emitCounter.length) ∧
      (∀ i : Nat, i < demoProcessors.length →
        idleWorld.handler.emitCounter[i + (demoProcessors.length - idleWorld.handler.counterLatch)]?
          = some 0) :=
  C17_counter_invariant 2 (by decide) 4 60 demoProcessors idleWorld
    ⟨[], listClock [0, 0, 0, 70 * Second], idleCalls, rfl⟩

/-! ## `Flush` on empty stashes -/

theorem list_set_getElem_same {α : Type} (l : List α) (i : Nat) (h : i < l.length) :
    l.set i l[i] = l := by
  apply List.ext_getElem?
  intro k
  by_cases hk : i = k
  · subst hk
    rw [List.getElem?_set_self h, List.getElem?_eq_getElem h]
  · rw [List.getElem?_set_ne hk]

/-- On stashes that are all empty the loop of `putToQueue` changes nothing,
whatever the batch size. -/
theorem putToQueueLoop_empty {S Doc : Type} (B : Nat) :
    ∀ (rest pre : List (Stash Doc)) (i : Nat) (f : FlowHandler S Doc),
      pre.length = i → f.stashes = pre ++ rest → (∀ s ∈ rest, s.docs = []) →
      i + rest.length + f.counterLatch ≤ f.emitCounter.length → f.countersInRange →
      putToQueueLoop B rest i f = .ok f := by
  intro rest
  induction rest with
  | nil =>
    intro pre i f _ _ _ _ _
    rfl
  | cons stash rest ih =>
    intro pre i f hi hst hempty hlen hrange
    simp only [List.length_cons] at hlen
    have hin : i + f.counterLatch < f.emitCounter.length := by omega
    have hdocs : stash.docs = [] := hempty stash (List.mem_cons_self _ _)
    have hdump : stash.Dump = [] := hdocs
    have hclear : stash.Clear = stash := by
      cases stash
      simp only [Stash.Clear] at hdocs ⊢
      rw [hdocs]
    have hv : f.emitCounter[i + f.counterLatch] < 2 ^ 64 :=
      hrange _ (List.getElem_mem hin)
    have hec : f.emitCounter.set (i + f.counterLatch)
        ((f.emitCounter[i + f.counterLatch] + ([] : List Doc).length) % 2 ^ 64) =
        f.emitCounter := by
      rw [List.length_nil, Nat.add_zero, Nat.mod_eq_of_lt hv, list_set_getElem_same _ _ hin]
    have hil : i < f.stashes.length := by rw [hst, List.length_append, List.length_cons]; omega
    have hsi : f.stashes[i] = stash := by
      simp only [hst]
      rw [List.getElem_append_right (by omega)]
      simp [hi]
    have hss : f.stashes.set i stash.Clear = f.stashes := by
      rw [hclear, ← hsi, list_set_getElem_same _ _ hil]
    have hnext := ih (pre ++ [stash]) (i + 1) f (by simp [hi]) (by simp [hst])
      (fun s hs => hempty s (List.mem_cons_of_mem _ hs)) (by omega) hrange
    simp only [putToQueueLoop, hdump, List.length_nil, putBatches, Nat.lt_irrefl, if_false,
      List.getElem?_eq_getElem hin]
    rw [List.length_nil] at hec
    rw [hec, hss]
    exact hnext

/-- After `Flush` the counters are still values of `uint64`. -/
theorem Flush_countersInRange {S Doc : Type} (B : Nat) (hB : 0 < B) (f f1 : FlowHandler S Doc)
    (c c1 : Clock) (hidx : f.stashes.length + f.counterLatch ≤ f.emitCounter.length)
    (hrange : f.countersInRange) (h : Flush B f c = .ok (f1, c1)) : f1.countersInRange := by
  obtain ⟨g, hrun, -, -, -, -, -, -, -, -, h9, h10⟩ := Flush_spec B hB f c hidx
  rw [hrun] at h
  cases h
  intro v hv
  obtain ⟨k, hk⟩ := List.mem_iff_getElem?.mp hv
  by_cases hwin : f.counterLatch ≤ k ∧ k < f.stashes.length + f.counterLatch
  · have hlt : k - f.counterLatch < f.stashes.length := by omega
    have := h10 (k - f.counterLatch) _ (List.getElem?_eq_getElem hlt)
    rw [show k - f.counterLatch + f.counterLatch = k by omega, hk] at this
    cases this
    exact Nat.mod_lt _ (by decide)
  · rw [h9 k (by omega)] at hk
    exact hrange v (List.mem_iff_getElem?.mpr ⟨k, hk⟩)

/-- C11: on a handler whose counter indices are in range and whose counters
are `uint64` values, if every stash is empty then `Flush` returns, writes
nothing to the output queue and leaves every counter and every stash as it
was; and, with a positive batch size, a second `Flush` directly after a first
one writes nothing and changes no counter and no stash. -/
theorem C11_flush_idempotent {S Doc : Type} (B : Nat) (f : FlowHandler S Doc) (c : Clock)
    (hidx : f.stashes.length + f.counterLatch ≤ f.emitCounter.length)
    (hrange : f.countersInRange) :
    ((∀ s ∈ f.stashes, s.docs = []) →
      ∃ f1 : FlowHandler S Doc, Flush B f c = .ok (f1, c.tick) ∧
        f1.zmqAppQueue = f.zmqAppQueue ∧ f1.emitCounter = f.emitCounter ∧
        f1.stashes = f.stashes) ∧
    (0 < B →
      ∃ f1 f2 : FlowHandler S Doc, Flush B f c = .ok (f1, c.tick) ∧
        Flush B f1 c.tick = .ok (f2, c.tick.tick) ∧
        f2.zmqAppQueue = f1.zmqAppQueue ∧ f2.emitCounter = f1.emitCounter ∧
        f2.stashes = f1.stashes) := by
  constructor
  · intro hempty
    have h := putToQueueLoop_empty B f.stashes [] 0 f rfl rfl hempty (by omega) hrange
    exact ⟨{ f with lastProcess := c.now }, by simp [Flush, putToQueue, h], rfl, rfl, rfl⟩
  · intro hB
    obtain ⟨f1, hrun, h1, -, -, -, -, h6, -, h8, -, -⟩ := Flush_spec B hB f c hidx
    have hrange1 := Flush_countersInRange B hB f f1 c c.tick hidx hrange hrun
    have hempty1 : ∀ s ∈ f1.stashes, s.docs = [] := by
      intro s hs
      rw [h1, List.mem_map] at hs
      obtain ⟨t, -, rfl⟩ := hs
      rfl
    have hidx1 : f1.stashes.length + f1.counterLatch ≤ f1.emitCounter.length := by
      rw [h1, List.length_map, h6, h8]
      exact hidx
    have h := putToQueueLoop_empty B f1.stashes [] 0 f1 rfl rfl hempty1 (by omega) hrange1
    exact ⟨f1, { f1 with lastProcess := c.tick.now }, hrun, by simp [Flush, putToQueue, h],
      rfl, rfl, rfl⟩

/-- C11 at the demonstration handler with batches of two. -/
theorem C11_flush_idempotent_witness :
    ∃ f1 f2 : FlowHandler Unit Nat, Flush 2 demoHandler (listClock [5, 6]) =
        .ok (f1, (listClock [5, 6]).tick) ∧
      Flush 2 f1 (listClock [5, 6]).tick = .ok (f2, (listClock [5, 6]).tick.tick) ∧
      f2.zmqAppQueue = f1.zmqAppQueue ∧ f2.emitCounter = f1.emitCounter ∧
      f2.stashes = f1.stashes :=
  (C11_flush_idempotent 2 demoHandler (listClock [5, 6]) (by decide)
    (by intro v hv; simp [demoHandler] at hv; omega)).2 (by decide)

/-! ## What the loops leave alone -/

theorem putToQueueLoop_frame {S Doc : Type} (B : Nat) :
    ∀ (rest : List (Stash Doc)) (i : Nat) (f f1 : FlowHandler S Doc),
      putToQueueLoop B rest i f = .ok f1 →
      f1.processors = f.processors ∧ f1.statItems = f.statItems ∧
        f1.numberOfApps = f.numberOfApps ∧ f1.counterLatch = f.counterLatch := by
  intro rest
  induction rest with
  | nil =>
    intro i f f1 h
    simp only [putToQueueLoop] at h
    cases h
    exact ⟨rfl, rfl, rfl, rfl⟩
  | cons stash rest ih =>
    intro i f f1 h
    simp only [putToQueueLoop] at h
    split at h
    · cases h
    · split at h
      · cases h
      · have := ih _ _ _ h
        exact this

theorem Flush_frame {S Doc : Type} (B : Nat) (f f1 : FlowHandler S Doc) (c c1 : Clock)
    (h : Flush B f c = .ok (f1, c1)) :
    f1.processors = f.processors ∧ f1.statItems = f.statItems ∧
      f1.numberOfApps = f.numberOfApps ∧ f1.counterLatch = f.counterLatch := by
  simp only [Flush, putToQueue] at h
  split at h
  · cases h
  · rename_i f2 hp
    cases h
    have := putToQueueLoop_frame B _ _ _ _ hp
    exact this

theorem retryLoop_frame {S Doc : Type} (B i : Nat) :
    ∀ (fuel : Nat) (docs : List Doc) (f : FlowHandler S Doc) (c : Clock) (r : RetryResult S Doc),
      retryLoop B i fuel docs f c = .ok r →
      r.handler.processors = f.processors ∧ r.handler.statItems = f.statItems ∧
        r.handler.numberOfApps = f.numberOfApps ∧ r.handler.counterLatch = f.counterLatch := by
  intro fuel
  induction fuel with
  | zero =>
    intro docs f c r h
    simp [retryLoop] at h
  | succ fuel ih =>
    intro docs f c r h
    simp only [retryLoop] at h
    split at h
    · cases h
    · split at h
      · cases h
        exact ⟨rfl, rfl, rfl, rfl⟩
      · split at h
        · cases h
        · rename_i f2 c2 hfl
          obtain ⟨a1, a2, a3, a4⟩ := Flush_frame B _ f2 c c2 hfl
          split at h
          · cases h
          · rename_i r1 hr
            cases h
            obtain ⟨b1, b2, b3, b4⟩ := ih _ f2 c2 r1 hr
            exact ⟨b1.trans a1, b2.trans a2, b3.trans a3, b4.trans a4⟩

/-- Whatever the stashes do, a completed pass of the loop of `Process` has
applied `Process(flow, false)` once to each processor it visited and left the
other processors and the statistics items alone. -/
theorem processLoop_processors {S Doc : Type} (B fuel : Nat) (flow : TaggedFlow) :
    ∀ (rest pre post : List (FlowProcessor S Doc)) (i : Nat) (f f1 : FlowHandler S Doc)
      (c c1 : Clock),
      pre.length = i → f.processors = pre ++ rest ++ post →
      processLoop B fuel flow rest i f c = .ok (f1, c1) →
      f1.processors = pre ++ rest.map (fun p => (p.Process flow false).1) ++ post ∧
        f1.statItems = f.statItems ∧ f1.numberOfApps = f.numberOfApps ∧
        f1.counterLatch = f.counterLatch := by
  intro rest
  induction rest with
  | nil =>
    intro pre post i f f1 c c1 _ hp h
    simp only [processLoop] at h
    cases h
    exact ⟨by simpa using hp, rfl, rfl, rfl⟩
  | cons p rest ih =>
    intro pre post i f f1 c c1 hi hp h
    simp only [processLoop] at h
    split at h
    · cases h
    · rename_i r hr
      obtain ⟨a1, a2, a3, a4⟩ := retryLoop_frame B i fuel _ _ c r hr
      dsimp only at a1 a2 a3 a4
      have hset : r.handler.processors =
          (pre ++ [(p.Process flow false).1]) ++ rest ++ post := by
        rw [a1, hp, List.append_assoc, List.set_append, if_neg (by omega)]
        simp [hi]
      obtain ⟨b1, b2, b3, b4⟩ :=
        ih (pre ++ [(p.Process flow false).1]) post (i + 1) r.handler f1 r.clock c1
          (by simp [hi]) hset h
      exact ⟨by rw [b1]; simp, b2.trans a2, b3.trans a3, b4.trans a4⟩

theorem getCounterLoop_names {S Doc : Type} (oldLatch : Nat) :
    ∀ (n i : Nat) (f f1 : FlowHandler S Doc),
      getCounterLoop oldLatch n i f = .ok f1 →
      f1.processors = f.processors ∧
        f1.statItems.map StatItem.Name = f.statItems.map StatItem.Name := by
  intro n
  induction n with
  | zero =>
    intro i f f1 h
    simp only [getCounterLoop] at h
    cases h
    exact ⟨rfl, rfl⟩
  | succ n ih =>
    intro i f f1 h
    simp only [getCounterLoop] at h
    split at h
    · rename_i item v hit hv
      obtain ⟨a1, a2⟩ := ih _ _ _ h
      dsimp only at a1 a2
      refine ⟨a1, ?_⟩
      rw [a2]
      apply List.ext_getElem?
      intro k
      simp only [List.getElem?_map]
      by_cases hk : i = k
      · subst hk
        have hlt : i < f.statItems.length := by
          by_contra hcon
          rw [List.getElem?_eq_none (by omega)] at hit
          cases hit
        rw [List.getElem?_set_self hlt, hit]
        rfl
      · rw [List.getElem?_set_ne hk]
    · cases h

theorem Process_names {S Doc : Type} (B fuel : Nat) (flow : TaggedFlow)
    (f f1 : FlowHandler S Doc) (c c1 : Clock) (e : Option String) (hn : f.namesAligned)
    (h : Process B fuel f c flow = .ok (e, f1, c1)) : f1.namesAligned := by
  unfold Process at h
  split at h
  · cases h
    exact hn
  · split at h
    · cases h
    · rename_i f2 c2 hp
      cases h
      obtain ⟨a1, a2, -, -⟩ :=
        processLoop_processors B fuel flow f.processors [] [] 0 f f2 c.tick c2 rfl (by simp) hp
      unfold FlowHandler.namesAligned at hn ⊢
      dsimp only
      rw [a1, a2, hn]
      simp only [List.nil_append, List.append_nil, List.map_map]
      apply List.map_congr_left
      intro p _
      rfl

theorem step_names {S Doc : Type} (B : Nat) (w w1 : World S Doc) (call : Call)
    (hn : w.handler.namesAligned) (h : w.step B call = .ok w1) : w1.handler.namesAligned := by
  cases call with
  | process fuel flow =>
    simp only [World.step] at h
    split at h
    · cases h
    · rename_i f c hp
      cases h
      exact Process_names B fuel flow _ f _ c none hn hp
    · rename_i e f c hp
      cases h
      exact Process_names B fuel flow _ f _ c (some e) hn hp
  | flush =>
    simp only [World.step] at h
    split at h
    · cases h
    · rename_i f c hp
      cases h
      obtain ⟨a1, a2, -, -⟩ := Flush_frame B _ f _ c hp
      unfold FlowHandler.namesAligned at hn ⊢
      dsimp only
      rw [a1, a2, hn]
  | getCounter =>
    simp only [World.step] at h
    split at h
    · cases h
    · rename_i items f hp
      cases h
      simp only [GetCounter] at hp
      split at hp
      · cases hp
      · rename_i f2 hl
        cases hp
        obtain ⟨a1, a2⟩ := getCounterLoop_names _ _ _ _ _ hl
        unfold FlowHandler.namesAligned at hn ⊢
        dsimp only at a1 a2 ⊢
        rw [a1, a2, hn]

theorem run_names {S Doc : Type} (B : Nat) :
    ∀ (calls : List Call) (w w1 : World S Doc),
      w.handler.namesAligned → World.run B w calls = .ok w1 → w1.handler.namesAligned := by
  intro calls
  induction calls with
  | nil =>
    intro w w1 hn h
    simp only [World.run] at h
    cases h
    exact hn
  | cons call rest ih =>
    intro w w1 hn h
    simp only [World.run] at h
    split at h
    · cases h
    · rename_i w2 hs
      exact ih w2 w1 (step_names B w w2 call hn hs) h

/-- In every reachable world the statistics items carry the processors' names,
which are the names of the processors `NewFlowHandler` was given. -/
theorem Reachable_names {S Doc : Type} (B DOCS_IN_BUFFER WINDOW_SIZE : Nat)
    (processors : List (FlowProcessor S Doc)) (w : World S Doc)
    (h : Reachable B DOCS_IN_BUFFER WINDOW_SIZE processors w) : w.handler.namesAligned := by
  obtain ⟨q0, c0, calls, hrun⟩ := h
  refine run_names B calls _ w ?_ hrun
  simp [FlowHandler.namesAligned, World.init, NewFlowHandler, FlowProcessor.GetName,
    FlowProcessor.Prepare]


/-- C15: on a well-formed handler over `N` processors whose statistics items
carry the processors' names (as in every reachable handler), `GetCounter`
returns `N` items; item `i` has the value `emitCounter[i + counterLatch]` and
the name of processor `i`; afterwards those `N` entries are 0, every other
entry of `emitCounter` is as before, the latch has moved from 0 to `N` or from
`N` to 0, and the stashes, `lastProcess`, the processors and the output queue
are as before. -/
theorem C15_get_counter {S Doc : Type} (f : FlowHandler S Doc) (hwf : f.wellFormed)
    (hn : f.namesAligned) :
    ∃ (items : List StatItem) (f1 : FlowHandler S Doc), GetCounter f = .ok (items, f1) ∧
      items.length = f.numberOfApps ∧
      (∀ i : Nat, i < f.numberOfApps →
        (∃ v : Nat, f.emitCounter[i + f.counterLatch]? = some v ∧
          (items[i]?).map StatItem.Value = some v) ∧
        (∃ p : FlowProcessor S Doc, f.processors[i]? = some p ∧
          (items[i]?).map StatItem.Name = some p.GetName) ∧
        f1.emitCounter[i + f.counterLatch]? = some 0) ∧
      (∀ k : Nat, k < f.counterLatch ∨ f.numberOfApps + f.counterLatch ≤ k →
        f1.emitCounter[k]? = f.emitCounter[k]?) ∧
      f1.emitCounter.length = f.emitCounter.length ∧
      f1.counterLatch = (if f.counterLatch = 0 then f.numberOfApps else 0) ∧
      f1.stashes = f.stashes ∧ f1.lastProcess = f.lastProcess ∧
      f1.processors = f.processors ∧ f1.zmqAppQueue = f.zmqAppQueue := by
  obtain ⟨f1, hrun, hwf1, h1, h2, h3, h4, h5, h6, h7, h8, h9⟩ := GetCounter_spec f hwf
  obtain ⟨hp, hs, hi, he, hl⟩ := hwf
  obtain ⟨-, -, hi1, he1, -⟩ := hwf1
  refine ⟨f1.statItems, f1, hrun, by rw [hi1, h1], ?_, h7, by rw [he1, he, h1], h6, h3, h4, h2,
    h5⟩
  intro i hlt
  have hin : i + f.counterLatch < f.emitCounter.length := by
    rcases hl with h | h <;> omega
  have hpi : i < f.processors.length := by omega
  refine ⟨⟨f.emitCounter[i + f.counterLatch], List.getElem?_eq_getElem hin, ?_⟩,
    ⟨f.processors[i], List.getElem?_eq_getElem hpi, ?_⟩, h8 _ (by omega) (by omega)⟩
  · rw [(h9 i hlt).1, List.getElem?_eq_getElem hin]
  · rw [(h9 i hlt).2]
    have := congrArg (fun l => l[i]?) hn
    simp only [List.getElem?_map] at this
    rw [this, List.getElem?_eq_getElem hpi]
    rfl

/-- C15 at the world reached by one `Process` and one `Flush`. -/
theorem C15_get_counter_witness :
    ∃ (items : List StatItem) (f1 : FlowHandler Unit Nat),
      GetCounter idleWorld.handler = .ok (items, f1) ∧
      items.length = idleWorld.handler.numberOfApps ∧
      f1.counterLatch =
        (if idleWorld.handler.counterLatch = 0 then idleWorld.handler.numberOfApps else 0) ∧
      f1.stashes = idleWorld.handler.stashes ∧
      f1.lastProcess = idleWorld.handler.lastProcess := by
  obtain ⟨items, f1, hrun, hlen, -, -, -, hl, hs, hp, -⟩ :=
    C15_get_counter idleWorld.handler
      (Reachable_inv 2 (by decide) 4 60 demoProcessors idleWorld
        ⟨[], listClock [0, 0, 0, 70 * Second], idleCalls, rfl⟩).1
      (Reachable_names 2 4 60 demoProcessors idleWorld
        ⟨[], listClock [0, 0, 0, 70 * Second], idleCalls, rfl⟩)
  exact ⟨items, f1, hrun, hlen, hl, hs, hp⟩

/-! ## One overflow in the retry loop -/

/-- C16: whenever, in the retry loop of `Process` for processor `i`, the `Add`
on stash `i` returns a residual, `Flush` runs on the whole handler before the
loop goes on: it returns, leaves every stash empty (stash `i` is the one `Add`
just filled, cleared), has appended to the output queue the batches of every
stash, which concatenate to all the documents the stashes held, and the rest of
the loop is the loop started with exactly that residual on the flushed
handler. -/
theorem C16_overflow_flush {S Doc : Type} (B : Nat) (hB : 0 < B) (i fuel : Nat)
    (docs residual : List Doc) (f : FlowHandler S Doc) (c : Clock) (s : Stash Doc)
    (hidx : f.stashes.length + f.counterLatch ≤ f.emitCounter.length)
    (hs : f.stashes[i]? = some s) (hres : (s.Add docs).2 = some residual) :
    ∃ f2 : FlowHandler S Doc,
      Flush B { f with stashes := f.stashes.set i (s.Add docs).1 } c = .ok (f2, c.tick) ∧
      (∀ t ∈ f2.stashes, t.docs = []) ∧
      f2.stashes.length = f.stashes.length ∧
      f2.stashes[i]? = some (s.Add docs).1.Clear ∧
      f2.zmqAppQueue = f.zmqAppQueue ++
        ((f.stashes.set i (s.Add docs).1).map (fun t => batchesOf B t.Dump)).flatten ∧
      (((f.stashes.set i (s.Add docs).1).map (fun t => batchesOf B t.Dump)).flatten).flatten =
        ((f.stashes.set i (s.Add docs).1).map Stash.Dump).flatten ∧
      retryLoop B i (fuel + 1) docs f c =
        (match retryLoop B i fuel residual f2 c.tick with
         | .error e => .error e
         | .ok r => .ok (RetryResult.mk r.handler r.clock (r.flushes + 1)
            ({ f with stashes := f.stashes.set i (s.Add docs).1 } :: f2 :: r.observed))) := by
  obtain ⟨f2, hfl, h1, h2, -⟩ :=
    Flush_spec B hB ({ f with stashes := f.stashes.set i (s.Add docs).1 }) c
      (by simpa using hidx)
  dsimp only at h1 h2
  have hi : i < f.stashes.length := by
    by_contra hcon
    rw [List.getElem?_eq_none (by omega)] at hs
    cases hs
  refine ⟨f2, hfl, ?_, ?_, ?_, h2, ?_, ?_⟩
  · intro t ht
    rw [h1, List.mem_map] at ht
    obtain ⟨u, -, rfl⟩ := ht
    rfl
  · rw [h1, List.length_map, List.length_set]
  · rw [h1, List.getElem?_map, List.getElem?_set_self hi]
    rfl
  · rw [List.flatten_flatten, List.map_map]
    congr 1
    apply List.map_congr_left
    intro t _
    exact batchesOf_flatten B hB t.Dump
  · simp only [retryLoop, hs, hres, hfl]

/-- C16 at the demonstration handler: nine documents for stash 0, which has
room for two. -/
theorem C16_overflow_flush_witness :
    ∃ f2 : FlowHandler Unit Nat,
      Flush 2 { demoHandler with
        stashes := demoHandler.stashes.set 0
          ((({ capacity := 4, window := 60, docs := [10, 11] } : Stash Nat).Add
            (List.replicate 9 7)).1) } (listClock []) = .ok (f2, (listClock []).tick) ∧
      (∀ t ∈ f2.stashes, t.docs = []) ∧
      f2.zmqAppQueue = [[10, 11], [7, 7], [20, 21], [22]] := by
  obtain ⟨f2, hfl, hempty, -, -, hq, -, -⟩ :=
    C16_overflow_flush 2 (by decide) 0 3 (List.replicate 9 7) (List.replicate 7 7) demoHandler
      (listClock []) { capacity := 4, window := 60, docs := [10, 11] } (by decide) rfl rfl
  exact ⟨f2, hfl, hempty, by rw [hq]; decide⟩

/-! ## `Process` without overflow -/

theorem Stash.Add_of_none {Doc : Type} (s : Stash Doc) (docs : List Doc)
    (h : (s.Add docs).2 = none) : (s.Add docs).1 = { s with docs := s.docs ++ docs } := by
  have hfit : docs.length ≤ s.capacity - s.docs.length := by
    by_contra hcon
    rw [Stash.Add_snd_some s docs hcon] at h
    cases h
  rw [Stash.Add_fst, List.take_of_length_le hfit]

theorem processLoop_append {S Doc : Type} (B fuel : Nat) (flow : TaggedFlow) :
    ∀ (l1 l2 : List (FlowProcessor S Doc)) (i : Nat) (f : FlowHandler S Doc) (c : Clock),
      processLoop B fuel flow (l1 ++ l2) i f c =
        (match processLoop B fuel flow l1 i f c with
         | .error e => .error e
         | .ok (f1, c1) => processLoop B fuel flow l2 (i + l1.length) f1 c1) := by
  intro l1
  induction l1 with
  | nil =>
    intro l2 i f c
    simp [processLoop]
  | cons p l1 ih =>
    intro l2 i f c
    simp only [List.cons_append, processLoop, List.length_cons]
    cases retryLoop B i fuel (p.Process flow false).2
        { f with processors := f.processors.set i (p.Process flow false).1 } c with
    | error e => rfl
    | ok r =>
      simp only [List.append_eq]
      rw [ih l2 (i + 1) r.handler r.clock, show i + 1 + l1.length = i + (l1.length + 1) by omega]

/-- When no `Add` returns a residual, the loop of `Process` over the
processors `rest` at the indices from `i` on applies `Process(flow, false)`
to each of them and `Add` to the stash of the same index, and nothing else. -/
theorem processLoop_fits {S Doc : Type} (B fuel : Nat) (flow : TaggedFlow) :
    ∀ (rest : List (FlowProcessor S Doc)) (restS : List (Stash Doc))
      (preP postP : List (FlowProcessor S Doc)) (preS postS : List (Stash Doc)) (i : Nat)
      (f : FlowHandler S Doc) (c : Clock),
      preP.length = i → preS.length = i → restS.length = rest.length →
      f.processors = preP ++ rest ++ postP → f.stashes = preS ++ restS ++ postS →
      (∀ (k : Nat) (p : FlowProcessor S Doc) (s : Stash Doc), rest[k]? = some p →
        restS[k]? = some s → (s.Add (p.Process flow false).2).2 = none) →
      processLoop B (fuel + 1) flow rest i f c =
        .ok ({ f with
          processors := preP ++ rest.map (fun p => (p.Process flow false).1) ++ postP
          stashes := preS ++ List.zipWith
            (fun s p => (s.Add (p.Process flow false).2).1) restS rest ++ postS }, c) := by
  intro rest
  induction rest with
  | nil =>
    intro restS preP postP preS postS i f c _ _ hl hp hs _
    have hnil : restS = [] := List.length_eq_zero.mp hl
    subst hnil
    simp only [processLoop, List.map_nil, List.zipWith_nil_right]
    rw [← hp, ← hs]
  | cons p rest ih =>
    intro restS preP postP preS postS i f c hiP hiS hl hp hs hfit
    cases restS with
    | nil => simp at hl
    | cons s restS =>
      simp only [List.length_cons, Nat.add_right_cancel_iff] at hl
      have hnone : (s.Add (p.Process flow false).2).2 = none := hfit 0 p s (by simp) (by simp)
      have hsi : f.stashes[i]? = some s := by
        rw [hs, List.append_assoc, List.getElem?_append_right (by omega)]
        simp [hiS]
      have hsetP : f.processors.set i (p.Process flow false).1 =
          (preP ++ [(p.Process flow false).1]) ++ rest ++ postP := by
        rw [hp, List.append_assoc, List.set_append, if_neg (by omega)]
        simp [hiP]
      have hsetS : f.stashes.set i (s.Add (p.Process flow false).2).1 =
          (preS ++ [(s.Add (p.Process flow false).2).1]) ++ restS ++ postS := by
        rw [hs, List.append_assoc, List.set_append, if_neg (by omega)]
        simp [hiS]
      have hnext := ih restS (preP ++ [(p.Process flow false).1]) postP
        (preS ++ [(s.Add (p.Process flow false).2).1]) postS (i + 1)
        { f with
          processors := f.processors.set i (p.Process flow false).1
          stashes := f.stashes.set i (s.Add (p.Process flow false).2).1 } c
        (by simp [hiP]) (by simp [hiS]) hl hsetP hsetS
        (fun k q t hq ht => hfit (k + 1) q t (by simpa using hq) (by simpa using ht))
      simp only [processLoop, retryLoop, hsi, hnone]
      rw [hnext]
      simp


/-- C14: on a handler with as many stashes as processors, for a flow that
`isValidFlow` accepts and for which no `Add` returns a residual, `Process`
(with fuel for one `Add` per processor) returns nil.  Afterwards every
processor has gone through `Process(flow, false)` once, stash `i` holds what it
held followed by the documents processor `i` returned, the output queue, the
counters and the latch are as before, and `lastProcess` is the reading taken
at completion.  The processors are visited in registration order: for every
`j`, the first `j` rounds of the loop return a handler in which exactly the
first `j` processors have gone through `Process`, and the remaining rounds lead
from it to the final handler; and, in every state of the handler and the
clock, with or without overflow, the loop over `l1 ++ l2` is the loop over
`l1` followed by the loop over `l2` from the handler and the clock the first
one left, the loop over a single processor at index `i` is one
`Process(flow, false)` of that processor followed by the retry loop on stash
`i`, the loop over no processor changes nothing, and `Process` is the loop
over the processors of the handler from index 0 followed by the assignment of
`lastProcess`. -/
theorem C14_process_no_overflow {S Doc : Type} (B fuel : Nat) (f : FlowHandler S Doc)
    (c : Clock) (flow : TaggedFlow) (hlen : f.stashes.length = f.processors.length)
    (hvalid : isValidFlow flow c.now = true)
    (hfit : ∀ (k : Nat) (p : FlowProcessor S Doc) (s : Stash Doc), f.processors[k]? = some p →
      f.stashes[k]? = some s → (s.Add (p.Process flow false).2).2 = none) :
    ∃ f1 : FlowHandler S Doc, Process B (fuel + 1) f c flow = .ok (none, f1, c.tick.tick) ∧
      f1.processors = f.processors.map (fun p => (p.Process flow false).1) ∧
      f1.stashes = List.zipWith
        (fun s p => { s with docs := s.docs ++ (p.Process flow false).2 })
        f.stashes f.processors ∧
      f1.zmqAppQueue = f.zmqAppQueue ∧ f1.emitCounter = f.emitCounter ∧
      f1.counterLatch = f.counterLatch ∧ f1.lastProcess = c.tick.now ∧
      (∀ j : Nat, j ≤ f.processors.length →
        ∃ fj : FlowHandler S Doc,
          processLoop B (fuel + 1) flow (f.processors.take j) 0 f c.tick = .ok (fj, c.tick) ∧
          fj.processors =
            (f.processors.take j).map (fun p => (p.Process flow false).1) ++
              f.processors.drop j ∧
          processLoop B (fuel + 1) flow (f.processors.drop j) j fj c.tick =
            .ok ({ f1 with lastProcess := f.lastProcess }, c.tick)) ∧
      (∀ (l1 l2 : List (FlowProcessor S Doc)) (i : Nat) (g : FlowHandler S Doc) (c1 : Clock),
        processLoop B (fuel + 1) flow (l1 ++ l2) i g c1 =
          (match processLoop B (fuel + 1) flow l1 i g c1 with
           | .error e => .error e
           | .ok (g1, c2) => processLoop B (fuel + 1) flow l2 (i + l1.length) g1 c2)) ∧
      (∀ (p : FlowProcessor S Doc) (i : Nat) (g : FlowHandler S Doc) (c1 : Clock),
        processLoop B (fuel + 1) flow [p] i g c1 =
          (match retryLoop B i (fuel + 1) (p.Process flow false).2
              { g with processors := g.processors.set i (p.Process flow false).1 } c1 with
           | .error e => .error e
           | .ok r => .ok (r.handler, r.clock))) ∧
      (∀ (i : Nat) (g : FlowHandler S Doc) (c1 : Clock),
        processLoop B (fuel + 1) flow [] i g c1 = .ok (g, c1)) ∧
      Process B (fuel + 1) f c flow =
        (match processLoop B (fuel + 1) flow f.processors 0 f c.tick with
         | .error e => .error e
         | .ok (g1, c1) => .ok (none, { g1 with lastProcess := c1.now }, c1.tick)) := by
  have hall := processLoop_fits B fuel flow f.processors f.stashes [] [] [] [] 0 f c.tick
    rfl rfl hlen (by simp) (by simp) hfit
  simp only [List.nil_append, List.append_nil] at hall
  have hzip : List.zipWith (fun s p => (s.Add (p.Process flow false).2).1) f.stashes
      f.processors = List.zipWith
        (fun s p => { s with docs := s.docs ++ (p.Process flow false).2 })
        f.stashes f.processors := by
    apply List.ext_getElem?
    intro k
    simp only [List.getElem?_zipWith]
    cases hs : f.stashes[k]? with
    | none => rfl
    | some s =>
      cases hp : f.processors[k]? with
      | none => rfl
      | some p =>
        simp only [Option.map_some', Option.bind_some]
        rw [Stash.Add_of_none s _ (hfit k p s hp hs)]
  refine ⟨{ f with
      processors := f.processors.map (fun p => (p.Process flow false).1)
      stashes := List.zipWith
        (fun s p => { s with docs := s.docs ++ (p.Process flow false).2 })
        f.stashes f.processors
      lastProcess := c.tick.now }, ?_, rfl, rfl, rfl, rfl, rfl, rfl, ?_,
    processLoop_append B (fuel + 1) flow, ?_, fun _ _ _ => rfl, ?_⟩
  · unfold Process
    rw [if_neg (by simp [hvalid]), hall, hzip]
  · intro j hj
    have hpre := processLoop_fits B fuel flow (f.processors.take j) (f.stashes.take j)
      [] (f.processors.drop j) [] (f.stashes.drop j) 0 f c.tick rfl rfl
      (by simp only [List.length_take]; omega) (by simp) (by simp)
      (fun k p s hp hs => hfit k p s
        (by
          rw [List.getElem?_take] at hp
          split_ifs at hp
          exact hp)
        (by
          rw [List.getElem?_take] at hs
          split_ifs at hs
          exact hs))
    simp only [List.nil_append] at hpre
    refine ⟨_, hpre, rfl, ?_⟩
    have happ := processLoop_append B (fuel + 1) flow (f.processors.take j)
      (f.processors.drop j) 0 f c.tick
    rw [List.take_append_drop, hall, hpre] at happ
    simp only [List.length_take, Nat.zero_add, Nat.min_eq_left hj] at happ
    rw [← happ, hzip]
  · intro p i g c1
    simp only [processLoop]
  · unfold Process
    rw [if_neg (by simp [hvalid])]


/-- C14 at the demonstration handler: each processor returns one document
and each stash has room for it. -/
theorem C14_process_no_overflow_witness :
    ∃ f1 : FlowHandler Unit Nat,
      Process 2 1 demoHandler (listClock [0, 9]) (mkFlow 0 0 0 0 0) =
        .ok (none, f1, (listClock [0, 9]).tick.tick) ∧
      f1.stashes.map Stash.Dump = [[10, 11, 1], [20, 21, 22, 2]] ∧
      f1.zmqAppQueue = demoHandler.zmqAppQueue ∧ f1.emitCounter = demoHandler.emitCounter ∧
      f1.lastProcess = 9 := by
  obtain ⟨f1, hrun, -, hs, hq, he, -, hl, -⟩ :=
    C14_process_no_overflow 2 0 demoHandler (listClock [0, 9]) (mkFlow 0 0 0 0 0) rfl
      (by decide)
      (by
        intro k p s hp hs
        match k with
        | 0 =>
          simp [demoHandler] at hp hs
          subst hp hs
          rfl
        | 1 =>
          simp [demoHandler] at hp hs
          subst hp hs
          rfl
        | k + 2 => simp [demoHandler] at hp)
  exact ⟨f1, hrun, by rw [hs]; rfl, hq, he, by rw [hl]; rfl⟩

/-! ## The end-to-end scenario -/

theorem batchesOf_single {Doc : Type} (B : Nat) (hB : 0 < B) (docs : List Doc)
    (h : docs.length = 1) : batchesOf B docs = [docs] := by
  have hl := batchesOf_length B hB docs
  have hf := batchesOf_flatten B hB docs
  rw [h, Nat.add_sub_cancel_left, Nat.div_self hB] at hl
  match hb : batchesOf B docs, hl with
  | [b], _ =>
    rw [hb] at hf
    simp at hf
    rw [hf]

theorem flatten_map_singleton {α β : Type} (l : List α) (g : α → β) :
    (l.map (fun a => [g a])).flatten = l.map g := by
  induction l with
  | nil => rfl
  | cons a l ih => simp [ih]

/-- C12: for a handler fresh from `NewFlowHandler` over any list of
processors, with stashes of positive capacity and a positive batch size:
`Process` of a flow that is accepted and for which every processor returns
exactly one document returns nil; a `Flush` then appends to the output queue
one batch per processor, in processor order, each holding the one document of
its processor; and the next `GetCounter` returns, in processor order, each
processor's name with the value 1. -/
theorem C12_scenario {S Doc : Type} (B : Nat) (hB : 0 < B) (DOCS_IN_BUFFER : Nat)
    (hcap : 0 < DOCS_IN_BUFFER) (WINDOW_SIZE : Nat) (processors : List (FlowProcessor S Doc))
    (q0 : List (List Doc)) (c c3 : Clock) (flow : TaggedFlow) (fuel : Nat)
    (hvalid : isValidFlow flow c.tick.now = true)
    (hone : ∀ p ∈ processors, (p.Prepare.Process flow false).2.length = 1) :
    ∃ (h1 h2 h3 : FlowHandler S Doc) (written : List (List Doc)) (items : List StatItem),
      Process B (fuel + 1) (NewFlowHandler DOCS_IN_BUFFER WINDOW_SIZE processors q0 c).1
        (NewFlowHandler DOCS_IN_BUFFER WINDOW_SIZE processors q0 c).2 flow =
        .ok (none, h1, c.tick.tick.tick) ∧
      Flush B h1 c3 = .ok (h2, c3.tick) ∧
      h2.zmqAppQueue = q0 ++ written ∧
      written = processors.map (fun p => (p.Prepare.Process flow false).2) ∧
      written.length = processors.length ∧
      (∀ b ∈ written, b.length = 1) ∧
      GetCounter h2 = .ok (items, h3) ∧
      items.map (fun it => (it.Name, it.Value)) = processors.map (fun p => (p.GetName, 1)) := by
  -- the fresh handler
  obtain ⟨hwf0, hz0⟩ := NewFlowHandler_inv DOCS_IN_BUFFER WINDOW_SIZE processors q0 c
  have hfit : ∀ (k : Nat) (p : FlowProcessor S Doc) (s : Stash Doc),
      (processors.map FlowProcessor.Prepare)[k]? = some p →
      (processors.map (fun _ => (NewStash DOCS_IN_BUFFER WINDOW_SIZE : Stash Doc)))[k]? = some s →
      (s.Add (p.Process flow false).2).2 = none := by
    intro k p s hp hs
    simp only [List.getElem?_map] at hp hs
    cases hq : processors[k]? with
    | none => rw [hq] at hp; cases hp
    | some q =>
      rw [hq] at hp hs
      cases hp
      cases hs
      apply Stash.Add_snd_none
      rw [hone q (List.mem_iff_getElem?.mpr ⟨k, hq⟩)]
      simp only [NewStash, List.length_nil]
      omega
  have hloop := processLoop_fits B fuel flow (processors.map FlowProcessor.Prepare)
    (processors.map (fun _ => (NewStash DOCS_IN_BUFFER WINDOW_SIZE : Stash Doc))) [] [] [] [] 0
    (NewFlowHandler DOCS_IN_BUFFER WINDOW_SIZE processors q0 c).1 c.tick.tick
    rfl rfl (by simp) (by simp [NewFlowHandler]) (by simp [NewFlowHandler]) hfit
  simp only [List.nil_append, List.append_nil] at hloop
  have hproc : Process B (fuel + 1) (NewFlowHandler DOCS_IN_BUFFER WINDOW_SIZE processors q0 c).1
      (NewFlowHandler DOCS_IN_BUFFER WINDOW_SIZE processors q0 c).2 flow = .ok (none,
        { (NewFlowHandler DOCS_IN_BUFFER WINDOW_SIZE processors q0 c).1 with
          processors := (processors.map FlowProcessor.Prepare).map
            (fun p => (p.Process flow false).1)
          stashes := List.zipWith (fun s p => (s.Add (p.Process flow false).2).1)
            (processors.map (fun _ => (NewStash DOCS_IN_BUFFER WINDOW_SIZE : Stash Doc)))
            (processors.map FlowProcessor.Prepare)
          lastProcess := c.tick.tick.now }, c.tick.tick.tick) := by
    unfold Process
    have hc : (NewFlowHandler DOCS_IN_BUFFER WINDOW_SIZE processors q0 c).2 = c.tick := rfl
    have hp : (NewFlowHandler DOCS_IN_BUFFER WINDOW_SIZE processors q0 c).1.processors =
        processors.map FlowProcessor.Prepare := rfl
    rw [hc, if_neg (by simp [hvalid]), hp, hloop]
  have hst : List.zipWith (fun s p => (s.Add (p.Process flow false).2).1)
      (processors.map (fun _ => (NewStash DOCS_IN_BUFFER WINDOW_SIZE : Stash Doc)))
      (processors.map FlowProcessor.Prepare) =
      processors.map (fun q =>
        (Stash.mk DOCS_IN_BUFFER WINDOW_SIZE (q.Prepare.Process flow false).2 : Stash Doc)) := by
    apply List.ext_getElem?
    intro k
    simp only [List.getElem?_zipWith, List.getElem?_map]
    cases hq : processors[k]? with
    | none => rfl
    | some q =>
      simp only [Option.map_some', Option.bind_some]
      have hnone := hfit k q.Prepare (NewStash DOCS_IN_BUFFER WINDOW_SIZE)
        (by rw [List.getElem?_map, hq]; rfl) (by rw [List.getElem?_map, hq]; rfl)
      rw [Stash.Add_of_none _ _ hnone]
      rfl
  rw [hst] at hproc
  generalize hh1 : ({ (NewFlowHandler DOCS_IN_BUFFER WINDOW_SIZE processors q0 c).1 with
          processors := (processors.map FlowProcessor.Prepare).map
            (fun p => (p.Process flow false).1)
          stashes := processors.map (fun q =>
            (Stash.mk DOCS_IN_BUFFER WINDOW_SIZE (q.Prepare.Process flow false).2 : Stash Doc))
          lastProcess := c.tick.tick.now } : FlowHandler S Doc) = h1 at hproc
  have e1 : h1.stashes = processors.map (fun q =>
      (Stash.mk DOCS_IN_BUFFER WINDOW_SIZE (q.Prepare.Process flow false).2 : Stash Doc)) := by
    rw [← hh1]
  have e2 : h1.emitCounter = List.replicate (processors.length * 2) 0 := by rw [← hh1]; rfl
  have e3 : h1.counterLatch = 0 := by rw [← hh1]; rfl
  have e4 : h1.zmqAppQueue = q0 := by rw [← hh1]; rfl
  have e5 : h1.statItems = processors.map
      (fun p => { Name := p.GetName, StatType := StatType.COUNT_TYPE, Value := 0 }) := by
    rw [← hh1]; rfl
  have e6 : h1.numberOfApps = processors.length := by rw [← hh1]; rfl
  obtain ⟨hwf1, hz1, -⟩ := Process_inv B hB (fuel + 1) flow _ h1 _ _ none hwf0 hz0 hproc
  have hidx : h1.stashes.length + h1.counterLatch ≤ h1.emitCounter.length := by
    rw [e1, e2, e3]
    simp
    omega
  obtain ⟨h2, hfl, -, b2, b3, -, -, b6, b7, -, -, b10⟩ := Flush_spec B hB h1 c3 hidx
  obtain ⟨hwf2, -, -⟩ := Flush_inv B hB h1 h2 c3 c3.tick hwf1 hz1 hfl
  obtain ⟨h3, hget, hwf3, d1, -, -, -, -, -, -, -, d9⟩ := GetCounter_spec h2 hwf2
  have hwritten : (h1.stashes.map (fun s => batchesOf B s.Dump)).flatten =
      processors.map (fun p => (p.Prepare.Process flow false).2) := by
    have hsingle : h1.stashes.map (fun s => batchesOf B s.Dump) =
        processors.map (fun p => [(p.Prepare.Process flow false).2]) := by
      rw [e1, List.map_map]
      apply List.map_congr_left
      intro q hq
      exact batchesOf_single B hB _ (hone q hq)
    rw [hsingle, flatten_map_singleton]
  refine ⟨h1, h2, h3, processors.map (fun p => (p.Prepare.Process flow false).2),
    h3.statItems, hproc, hfl, by rw [b2, e4, hwritten], rfl,
    by rw [List.length_map], ?_, hget, ?_⟩
  · intro b hb
    rw [List.mem_map] at hb
    obtain ⟨q, hq, rfl⟩ := hb
    exact hone q hq
  · have hlen3 : h3.statItems.length = processors.length := by
      rw [hwf3.2.2.1, d1, b3, e6]
    apply List.ext_getElem?
    intro k
    simp only [List.getElem?_map]
    by_cases hk : k < processors.length
    · obtain ⟨hv, hname⟩ := d9 k (by rw [b3, e6]; exact hk)
      have hs1 : h1.stashes[k]? = some
          (Stash.mk DOCS_IN_BUFFER WINDOW_SIZE ((processors[k]).Prepare.Process flow false).2) := by
        rw [e1, List.getElem?_map, List.getElem?_eq_getElem hk]
        rfl
      have hcount := b10 k _ hs1
      rw [e3, Nat.add_zero] at hcount
      rw [b6, e3, Nat.add_zero, hcount, e2, List.getD_eq_getElem?_getD,
        List.getElem?_replicate, if_pos (by omega)] at hv
      simp only [Option.getD_some, Nat.zero_add] at hv
      rw [hone _ (List.getElem_mem hk), Nat.mod_eq_of_lt (by decide)] at hv
      rw [b7, e5, List.getElem?_map, List.getElem?_eq_getElem hk] at hname
      rw [List.getElem?_eq_getElem hk]
      rw [List.getElem?_eq_getElem (by omega : k < h3.statItems.length)] at hv hname ⊢
      simp only [Option.map_some', Option.some.injEq] at hv hname ⊢
      rw [hv, hname]
    · rw [List.getElem?_eq_none (by omega), List.getElem?_eq_none (by omega)]
      rfl

/-- C12 at the specification's scenario: six processors, each returning one
document, a flow from 0 to one second read at two seconds. -/
theorem C12_scenario_witness :
    ∃ (h1 h2 h3 : FlowHandler Unit Nat) (written : List (List Nat)) (items : List StatItem),
      Process 2 1 (NewFlowHandler 4 60 scenarioProcessors [] (listClock [0, 2 * Second])).1
        (NewFlowHandler 4 60 scenarioProcessors [] (listClock [0, 2 * Second])).2
        (mkFlow 0 Second 0 0 0) = .ok (none, h1, (listClock [0, 2 * Second]).tick.tick.tick) ∧
      Flush 2 h1 (listClock [70 * Second]) = .ok (h2, (listClock [70 * Second]).tick) ∧
      h2.zmqAppQueue = [] ++ written ∧
      written = [[1], [2], [3], [4], [5], [6]] ∧
      GetCounter h2 = .ok (items, h3) ∧
      items.map (fun it => (it.Name, it.Value)) =
        [("flow", 1), ("perf", 1), ("geo", 1), ("flowtype", 1), ("consolelog", 1),
          ("platform", 1)] := by
  obtain ⟨h1, h2, h3, written, items, hp, hf, hq, hw, -, -, hg, hi⟩ :=
    C12_scenario 2 (by decide) 4 (by decide) 60 scenarioProcessors [] (listClock [0, 2 * Second])
      (listClock [70 * Second]) (mkFlow 0 Second 0 0 0) 0 (by decide)
      (by
        intro p hp
        simp only [scenarioProcessors, List.mem_cons, List.mem_singleton, List.not_mem_nil,
          or_false] at hp
        rcases hp with h | h | h | h | h | h <;> subst h <;> rfl)
  exact ⟨h1, h2, h3, written, items, hp, hf, hq, by rw [hw]; rfl, hg, by rw [hi]; rfl⟩

end Mapreduce

namespace Idmng

/-! ## `IDManager.Refresh` -/

/-- What the loop of `Refresh` does to its three variables. -/
theorem refreshLoop_spec {W E : Type} :
    ∀ (pools : List (String × IDPoolUpdater W E)) (result : Option E) (w : W)
      (calls : List (String × Option E)),
      ∃ made : List (String × Option E),
        (refreshLoop pools result w calls).2.2 = calls ++ made ∧
        made.map Prod.fst = pools.map Prod.fst ∧
        ((refreshLoop pools result w calls).1 = none ↔
          result = none ∧ ∀ entry ∈ made, entry.2 = none) ∧
        (∀ e : E, (refreshLoop pools result w calls).1 = some e →
          (result = some e ∧ ∀ entry ∈ made, entry.2 = none) ∨
            ∃ resourceType : String, (resourceType, some e) ∈ made) := by
  intro pools
  induction pools with
  | nil =>
    intro result w calls
    exact ⟨[], by simp [refreshLoop], rfl, by simp [refreshLoop], by simp [refreshLoop]⟩
  | cons entry rest ih =>
    intro result w calls
    obtain ⟨resourceType, idPool⟩ := entry
    cases herr : (idPool.refresh w).1 with
    | none =>
      obtain ⟨made, h1, h2, h3, h4⟩ :=
        ih result (idPool.refresh w).2 (calls ++ [(resourceType, none)])
      refine ⟨(resourceType, none) :: made, ?_, ?_, ?_, ?_⟩
      · simp only [refreshLoop, herr]
        rw [h1, List.append_assoc]
        rfl
      · simp [h2]
      · simp only [refreshLoop, herr]
        rw [h3]
        simp
      · intro e he
        simp only [refreshLoop, herr] at he
        rcases h4 e he with ⟨hr, hall⟩ | ⟨k, hk⟩
        · left
          refine ⟨hr, ?_⟩
          intro en hen
          rcases List.mem_cons.mp hen with h | h
          · rw [h]
          · exact hall en h
        · right
          exact ⟨k, List.mem_cons_of_mem _ hk⟩
    | some e0 =>
      obtain ⟨made, h1, h2, h3, h4⟩ :=
        ih (some e0) (idPool.refresh w).2 (calls ++ [(resourceType, some e0)])
      refine ⟨(resourceType, some e0) :: made, ?_, ?_, ?_, ?_⟩
      · simp only [refreshLoop, herr]
        rw [h1, List.append_assoc]
        rfl
      · simp [h2]
      · simp only [refreshLoop, herr]
        rw [h3]
        simp
      · intro e he
        simp only [refreshLoop, herr] at he
        right
        rcases h4 e he with ⟨hr, -⟩ | ⟨k, hk⟩
        · cases hr
          exact ⟨resourceType, List.mem_cons_self _ _⟩
        · exact ⟨k, List.mem_cons_of_mem _ hk⟩

/-- C19: `IDManager.Refresh` calls `refresh` once on every registered pool,
in the order of the visit and whatever the earlier calls returned; it returns
nil exactly when every call returned nil; and an error it returns is the error
one of the calls returned. -/
theorem C19_refresh {W E : Type} (m : IDManager W E) (w : W) :
    (m.Refresh w).2.2.map Prod.fst = m.resourceTypeToIDPool.map Prod.fst ∧
      ((m.Refresh w).1 = none ↔ ∀ entry ∈ (m.Refresh w).2.2, entry.2 = none) ∧
      (∀ e : E, (m.Refresh w).1 = some e →
        ∃ resourceType : String, (resourceType, some e) ∈ (m.Refresh w).2.2) := by
  obtain ⟨made, h1, h2, h3, h4⟩ := refreshLoop_spec m.resourceTypeToIDPool none w []
  rw [List.nil_append] at h1
  unfold IDManager.Refresh
  rw [h1]
  refine ⟨h2, ?_, ?_⟩
  · rw [h3]
    simp
  · intro e he
    rcases h4 e he with ⟨hr, -⟩ | h
    · cases hr
    · exact h

/-- C19 at a manager whose second pool of three fails: all three pools are
refreshed and the error of the second is returned. -/
theorem C19_refresh_witness :
    (demoManager.Refresh 0).2.2.map Prod.fst = ["region", "az", "host"] ∧
      (demoManager.Refresh 0).2.1 = 3 ∧
      (demoManager.Refresh 0).1 = some "az: query failed" ∧
      ∃ resourceType : String,
        (resourceType, some "az: query failed") ∈ (demoManager.Refresh 0).2.2 :=
  ⟨(C19_refresh demoManager 0).1, rfl, rfl, (C19_refresh demoManager 0).2.2 _ rfl⟩

end Idmng
